import Mathlib

/-!
Shallow embedding of the ORCA recovery core (`request_files.py` and
`shared_recovery.py`): the JSON payload serialization and SQS message
construction, the queue-delivery retry loop, the per-granule restore retry
loop with its status-event trace, the cold-storage existence probe, and the
task-level input handling.  External collaborators (the S3 client, the SQS
client, the wall clock) enter as explicit oracle parameters; everything else
is translated statement by statement from the Python source.
-/

namespace Orca

/-! ## JSON values and serialization (model of Python `json.dumps`)

Payload dictionaries hold string and integer values only (exactly what the
two `post_entry_to_queue` callers put in `new_data`).  The serializer below
models `json.dumps` for payloads whose strings consist of printable ASCII
characters other than `"` and `\` (on that domain CPython performs no
escaping beyond the quote/backslash escapes modelled here). -/

inductive JValue where
  | str (s : String)
  | num (n : Int)
deriving DecidableEq, Repr

/-- One decimal digit as a character. -/
def digitChar (d : Nat) : Char :=
  match d with
  | 0 => '0' | 1 => '1' | 2 => '2' | 3 => '3' | 4 => '4'
  | 5 => '5' | 6 => '6' | 7 => '7' | 8 => '8' | 9 => '9'
  | _ => '?'

/-- Decimal representation of a natural number, most significant digit
first (Python prints `0` as `"0"`). -/
def natChars (n : Nat) : List Char :=
  if n = 0 then ['0'] else ((Nat.digits 10 n).reverse.map digitChar)

/-- Decimal representation of an integer, as Python prints it. -/
def intChars (n : Int) : List Char :=
  if n < 0 then '-' :: natChars n.natAbs else natChars n.natAbs

/-- JSON string escaping: CPython's `json.dumps` escapes `"` and `\`
(control characters, which it also escapes, are outside the modelled
domain). -/
def escapeChar (c : Char) : List Char :=
  if c = '"' then ['\\', '"'] else if c = '\\' then ['\\', '\\'] else [c]

def escapeChars (s : List Char) : List Char := s.flatMap escapeChar

/-- Serialized form of one JSON value. -/
def dumpValue : JValue → List Char
  | .str s => '"' :: escapeChars s.data ++ ['"']
  | .num n => intChars n

/-- Serialized form of one `"key": value` pair. -/
def dumpPair (p : String × JValue) : List Char :=
  '"' :: escapeChars p.1.data ++ ['"', ':', ' '] ++ dumpValue p.2

/-- Remaining pairs of the object, each preceded by the separator, then the
closing delimiter. -/
def dumpTail (sep close : List Char) : List (String × JValue) → List Char
  | [] => close
  | p :: ps => sep ++ dumpPair p ++ dumpTail sep close ps

/-- A whole JSON object: opening delimiter, first pair, separated rest.
`json.dumps` prints the empty dict as `{}` for every indent setting. -/
def dumpChars (opn sep close : List Char) : List (String × JValue) → List Char
  | [] => ['{', '}']
  | p :: ps => opn ++ dumpPair p ++ dumpTail sep close ps

/-- `json.dumps(new_data)` — the compact form used by
`shared_recovery.post_entry_to_queue`. -/
def jsonDumps (d : List (String × JValue)) : String :=
  ⟨dumpChars ['{'] [',', ' '] ['}'] d⟩

/-- `json.dumps(new_data, indent=4)` — the form used by
`request_files.post_entry_to_queue`. -/
def jsonDumpsIndent4 (d : List (String × JValue)) : String :=
  ⟨dumpChars ('{' :: '\n' :: [' ', ' ', ' ', ' '])
             (',' :: '\n' :: [' ', ' ', ' ', ' '])
             ['\n', '}'] d⟩

/-- Characters that can appear in a serialized integer. -/
def isNumChar (c : Char) : Bool :=
  (48 ≤ c.toNat && c.toNat ≤ 57) || c = '-'

/-- Well-formedness of a payload string for the serialization model:
printable ASCII, no quote, no backslash. -/
def wfChar (c : Char) : Bool :=
  32 ≤ c.toNat && c.toNat ≤ 126 && c ≠ '"' && c ≠ '\\'

def wfString (s : String) : Bool := s.data.all wfChar

def wfValue : JValue → Bool
  | .str s => wfString s
  | .num _ => true

def wfPayload (d : List (String × JValue)) : Bool :=
  d.all fun p => wfString p.1 && wfValue p.2

/-! ## Request methods and queue messages -/

/-- `request_files.RequestMethod`. -/
inductive RequestMethod where
  | POST
  | PUT
deriving DecidableEq, Repr

def RequestMethod.value : RequestMethod → String
  | .POST => "post"
  | .PUT => "put"

/-- `shared_recovery.RequestMethod`. -/
inductive SharedRequestMethod where
  | NEW_JOB
  | UPDATE_FILE
deriving DecidableEq, Repr

def SharedRequestMethod.value : SharedRequestMethod → String
  | .NEW_JOB => "new_job"
  | .UPDATE_FILE => "update_file"

/-- The payload-carrying SQS message, as both `post_entry_to_queue`
implementations construct it in `sqs.send_message(...)`. -/
structure SqsMessage where
  dedupId : String
  groupId : String
  body : String
  attrRequestMethod : String
  attrTableName : String
deriving DecidableEq, Repr

/-- The message built by `request_files.post_entry_to_queue`:
`body = json.dumps(new_data, indent=4)`,
`MessageDeduplicationId = table_name + request_method.value + body`,
`MessageGroupId = 'request_files'`. -/
def requestFilesMessage (table_name : String) (m : RequestMethod)
    (new_data : List (String × JValue)) : SqsMessage :=
  let body := jsonDumpsIndent4 new_data
  { dedupId := table_name ++ m.value ++ body
    groupId := "request_files"
    body := body
    attrRequestMethod := m.value
    attrTableName := table_name }

/-- The message built by `shared_recovery.post_entry_to_queue`:
`body = json.dumps(new_data)`, same deduplication-id and group-id shape. -/
def sharedRecoveryMessage (table_name : String) (m : SharedRequestMethod)
    (new_data : List (String × JValue)) : SqsMessage :=
  let body := jsonDumps new_data
  { dedupId := table_name ++ m.value ++ body
    groupId := "request_files"
    body := body
    attrRequestMethod := m.value
    attrTableName := table_name }

/-! ## The queue-delivery retry loop of `request_files.post_entry_to_queue`

The `try` block (the two `sqs.send_message` calls) is modelled by an
outcome oracle per attempt number: `none` means the block ran without an
exception, `some e` means some call in it raised exception `e` (any
exception is caught uniformly by the bare `except Exception`). -/

inductive PostResult where
  | delivered (attempt : Nat)
  | fellThrough
  | raised (e : String)
deriving DecidableEq, Repr

structure PostEntryOutcome where
  result : PostResult
  sendAttempts : Nat
  sleeps : Nat
deriving DecidableEq, Repr

/-- Body of `for attempt in range(1, max_retries + 1)`.  `fuel` is the
number of loop iterations still to run; falling out of the loop returns
`None` in Python (`fellThrough`).  On an exception the code re-raises only
when `attempt == max_retries + 1`, otherwise it sleeps
`retry_sleep_secs` and continues. -/
def postEntryGo (outcome : Nat → Option String) (max_retries : Nat) :
    Nat → Nat → PostEntryOutcome
  | 0, _ => ⟨.fellThrough, 0, 0⟩
  | fuel + 1, attempt =>
    match outcome attempt with
    | none => ⟨.delivered attempt, 1, 0⟩
    | some e =>
      if attempt = max_retries + 1 then ⟨.raised e, 1, 0⟩
      else
        let r := postEntryGo outcome max_retries fuel (attempt + 1)
        ⟨r.result, r.sendAttempts + 1, r.sleeps + 1⟩

/-- `request_files.post_entry_to_queue`: `range(1, max_retries + 1)` runs
the body for `attempt = 1, ..., max_retries`. -/
def post_entry_to_queue (outcome : Nat → Option String) (max_retries : Nat) :
    PostEntryOutcome :=
  postEntryGo outcome max_retries max_retries 1

/-! ## Status constants -/

/-- `request_files.ORCA_STATUS_PENDING`. -/
def ORCA_STATUS_PENDING : Int := 1

/-- `request_files.ORCA_STATUS_FAILED` (the module comments out
`ORCA_STATUS_STAGED = 2` and `ORCA_STATUS_SUCCESS = 3`). -/
def ORCA_STATUS_FAILED : Int := 4

/-- `shared_recovery.OrcaStatus`. -/
inductive OrcaStatus where
  | PENDING
  | STAGED
  | FAILED
  | SUCCESS
deriving DecidableEq, Repr

def OrcaStatus.value : OrcaStatus → Int
  | .PENDING => 1
  | .STAGED => 2
  | .FAILED => 3
  | .SUCCESS => 4

/-! ## Status payload construction

`post_status_for_job_to_queue` and `post_status_for_file_to_queue` build a
`new_data` dict, inserting each optional field only when its argument is not
`None`, then hand it to `post_entry_to_queue` with a fixed table name. -/

/-- A field present only when the Python argument is not `None`. -/
def optField (k : String) (v : Option JValue) : List (String × JValue) :=
  match v with
  | some j => [(k, j)]
  | none => []

/-- The `new_data` dict of `post_status_for_job_to_queue`. -/
def jobStatusNewData (job_id granule_id : String) (status_id : Option Int)
    (request_time completion_time archive_destination : Option String) :
    List (String × JValue) :=
  [("job_id", .str job_id), ("granule_id", .str granule_id)]
    ++ optField "status_id" (status_id.map .num)
    ++ optField "request_time" (request_time.map .str)
    ++ optField "completion_time" (completion_time.map .str)
    ++ optField "archive_destination" (archive_destination.map .str)

/-- The `new_data` dict of `post_status_for_file_to_queue`. -/
def fileStatusNewData (job_id granule_id filename : String)
    (key_path restore_destination : Option String) (status_id : Option Int)
    (error_message request_time last_update completion_time : Option String) :
    List (String × JValue) :=
  [("job_id", .str job_id), ("granule_id", .str granule_id),
   ("filename", .str filename)]
    ++ optField "key_path" (key_path.map .str)
    ++ optField "restore_destination" (restore_destination.map .str)
    ++ optField "status_id" (status_id.map .num)
    ++ optField "error_message" (error_message.map .str)
    ++ optField "request_time" (request_time.map .str)
    ++ optField "last_update" (last_update.map .str)
    ++ optField "completion_time" (completion_time.map .str)

/-- `os.path.basename`: the part after the last `/`.  `cur` accumulates (in
reverse) the characters seen since the most recent slash. -/
def basenameChars : List Char → List Char → List Char
  | cur, [] => cur.reverse
  | cur, c :: rest =>
    if c = '/' then basenameChars [] rest else basenameChars (c :: cur) rest

def basename (s : String) : String := ⟨basenameChars [] s.data⟩

/-! ## The granule restore orchestrator (`process_granule`)

State: the `recover_files` list of dicts, mutated in place by the Python
loop.  External effects are collected in a trace of operations: restore
calls against S3, status payloads handed to the queue publishers, and the
inter-pass sleeps.  The S3 `restore_object` call is modelled by an oracle
mapping (file key, attempt number) to `none` (submission accepted) or
`some msg` (a `ClientError` whose `str` is `msg`).  The wall-clock strings
(`datetime.now(timezone.utc).isoformat()`) are supplied as parameters. -/

structure RecoverFile where
  key : String
  dest_bucket : String
  success : Bool
  err_msg : String
deriving DecidableEq, Repr

inductive Op where
  | restoreCall (key : String) (attempt : Nat)
  | postJobStatus (new_data : List (String × JValue))
  | postFileStatus (new_data : List (String × JValue))
  | sleepOp
deriving DecidableEq, Repr

/-- The constant context threaded through one `process_granule` run. -/
structure Ctx where
  job_id : String
  granule_id : String
  glacier_bucket : String
  request_time : String
  nowStr : String
deriving DecidableEq, Repr

/-- The PENDING file event posted right after a successful
`restore_object` (lines 258-270 of `request_files.py`):
`completion_time` and `error_message` are passed as `None`. -/
def pendingFileData (c : Ctx) (f : RecoverFile) : List (String × JValue) :=
  fileStatusNewData c.job_id c.granule_id (basename f.key)
    (some f.key) (some f.dest_bucket) (some ORCA_STATUS_PENDING)
    none (some c.request_time) (some c.nowStr) none

/-- The FAILED file event posted after the retry loop for a file whose
`success` is still false (lines 289-301): `error_message` is
`a_file.get('err_msg', None)` and `completion_time` is passed as `None`. -/
def failedFileData (c : Ctx) (f : RecoverFile) : List (String × JValue) :=
  fileStatusNewData c.job_id c.granule_id (basename f.key)
    (some f.key) (some f.dest_bucket) (some ORCA_STATUS_FAILED)
    (some f.err_msg) (some c.request_time) (some c.nowStr) none

/-- The job PENDING event posted before the retry loop (lines 244-247):
`completion_time` is `None`, `archive_destination` is the glacier bucket. -/
def pendingJobData (c : Ctx) : List (String × JValue) :=
  jobStatusNewData c.job_id c.granule_id (some ORCA_STATUS_PENDING)
    (some c.request_time) none (some c.glacier_bucket)

/-- The oracle for `s3.restore_object`: `none` means the call returned,
`some msg` means it raised a `ClientError` printing as `msg`. -/
def RestoreOracle := String → Nat → Option String

/-- The per-file body of the inner `for` loop at a given attempt: skip files
already successful; otherwise try the restore, and either mark success
(clearing `err_msg`) and post the PENDING file event, or record the error
message. -/
def fileStep (oracle : RestoreOracle) (c : Ctx) (attempt : Nat)
    (f : RecoverFile) : RecoverFile × List Op :=
  if f.success then (f, [])
  else
    match oracle f.key attempt with
    | none =>
      let f' := { f with success := true, err_msg := "" }
      (f', [.restoreCall f.key attempt, .postFileStatus (pendingFileData c f')])
    | some msg =>
      ({ f with err_msg := msg }, [.restoreCall f.key attempt])

/-- One pass of the inner `for` loop over all files. -/
def passFiles (oracle : RestoreOracle) (c : Ctx) (attempt : Nat)
    (files : List RecoverFile) : List RecoverFile × List Op :=
  (files.map fun f => (fileStep oracle c attempt f).1,
   files.flatMap fun f => (fileStep oracle c attempt f).2)

/-- The `while attempt <= max_retries + 1` loop.  `fuel` counts the loop
iterations still permitted by the condition; the early-completion check and
the sleep reproduce lines 276-281: after incrementing `attempt`, if the
condition still holds, break when every file succeeded, else sleep. -/
def retryLoop (oracle : RestoreOracle) (c : Ctx) (max_retries : Nat) :
    Nat → Nat → List RecoverFile → List RecoverFile × List Op
  | 0, _, files => (files, [])
  | fuel + 1, attempt, files =>
    let (files', ops) := passFiles oracle c attempt files
    if attempt + 1 ≤ max_retries + 1 then
      if files'.all (·.success) then (files', ops)
      else
        let (files'', ops') := retryLoop oracle c max_retries fuel (attempt + 1) files'
        (files'', ops ++ Op.sleepOp :: ops')
    else (files', ops)

/-- The post-loop sweep (lines 283-301): one FAILED file event per file
still unsuccessful. -/
def failedPosts (c : Ctx) : List RecoverFile → List Op
  | [] => []
  | f :: fs =>
    (if f.success then [] else [.postFileStatus (failedFileData c f)])
      ++ failedPosts c fs

/-- Python exceptions surfaced by the embedded functions. -/
inductive PyErr where
  | keyError (key : String)
  | clientError (code : String) (msg : String)
  | restoreRequestErrorMsg (msg : String)
  | restoreRequestError (files : List RecoverFile)
deriving DecidableEq, Repr

/-- The granule dict handed to `process_granule` (`copied_granule` in
`inner_task`): `none` fields model absent dict keys. -/
structure Granule where
  granuleId : Option String
  recover_files : Option (List RecoverFile)
deriving DecidableEq, Repr

/-- `process_granule`: look up `granuleId` (a missing key raises
`KeyError`), post the job PENDING event, run the retry loop over
`recover_files`, post one FAILED event per still-failed file, and raise
`RestoreRequestError` (carrying the mutated granule's files) when any file
failed.  Returns the final `recover_files` state plus the operation
trace. -/
def process_granule (oracle : RestoreOracle) (granule : Granule)
    (glacier_bucket : String) (max_retries : Nat)
    (job_id request_time nowStr : String) :
    Except PyErr (List RecoverFile) × List Op :=
  match granule.granuleId with
  | none => (.error (.keyError "granuleId"), [])
  | some granule_id =>
    let c : Ctx := ⟨job_id, granule_id, glacier_bucket, request_time, nowStr⟩
    let jobOp := Op.postJobStatus (pendingJobData c)
    match granule.recover_files with
    | none =>
      -- the first loop pass reads granule['recover_files'] and raises
      (.error (.keyError "recover_files"), [jobOp])
    | some files0 =>
      let (files, loopOps) := retryLoop oracle c max_retries (max_retries + 1) 1 files0
      let failOps := failedPosts c files
      if files.all (·.success) then
        (.ok files, jobOp :: loopOps ++ failOps)
      else
        (.error (.restoreRequestError files), jobOp :: loopOps ++ failOps)

/-! ### Analysis helpers for the retry loop -/

/-- The recover-files state after running passes `a, a+1, ..., a+n-1`
(the chronological sequence of states the `while` loop goes through). -/
def iteratePasses (oracle : RestoreOracle) (c : Ctx) :
    Nat → Nat → List RecoverFile → List RecoverFile
  | 0, _, files => files
  | n + 1, a, files =>
    iteratePasses oracle c n (a + 1) (passFiles oracle c a files).1

/-- The recover-files state after the whole retry loop of
`process_granule` (started at attempt 1 with `max_retries + 1` permitted
iterations). -/
def finalFiles (oracle : RestoreOracle) (c : Ctx) (max_retries : Nat)
    (files0 : List RecoverFile) : List RecoverFile :=
  (retryLoop oracle c max_retries (max_retries + 1) 1 files0).1

/-- Number of operations in a trace satisfying a predicate. -/
def countOps (p : Op → Bool) (ops : List Op) : Nat := (ops.filter p).length

def isSleep : Op → Bool
  | .sleepOp => true
  | _ => false

def isJobPost : Op → Bool
  | .postJobStatus _ => true
  | _ => false

/-- A file-status post whose payload carries the given `key_path` and the
given numeric `status_id`. -/
def isFilePostFor (key : String) (status : Int) : Op → Bool
  | .postFileStatus d =>
    decide (("key_path", JValue.str key) ∈ d)
      && decide (("status_id", JValue.num status) ∈ d)
  | _ => false

def isPendingFilePost (key : String) : Op → Bool :=
  isFilePostFor key ORCA_STATUS_PENDING

def isFailedFilePost (key : String) : Op → Bool :=
  isFilePostFor key ORCA_STATUS_FAILED

/-! ## Cold-storage probe and task input handling -/

/-- Outcome of `s3.head_object(Bucket, Key)`. -/
inductive HeadOutcome where
  | ok
  | clientErr (code : String) (msg : String)
deriving DecidableEq, Repr

/-- The oracle for `s3.head_object`, indexed by bucket and key. -/
def HeadOracle := String → String → HeadOutcome

/-- `object_exists`: `head_object` succeeding means the object is present;
a `ClientError` with code `NoSuchKey` or `NotFound` means confirmed absent;
any other `ClientError` is re-raised. -/
def object_exists (head : HeadOracle) (glacier_bucket file_key : String) :
    Except PyErr Bool :=
  match head glacier_bucket file_key with
  | .ok => .ok true
  | .clientErr code msg =>
    if code = "NoSuchKey" ∨ code = "NotFound" then .ok false
    else .error (.clientError code msg)

/-- One `{key, dest_bucket}` entry of a granule's `keys` list. -/
structure KeyEntry where
  key : String
  dest_bucket : String
deriving DecidableEq, Repr

/-- An input granule dict (`granuleId` may be absent). -/
structure InputGranule where
  granuleId : Option String
  keys : List KeyEntry
deriving DecidableEq, Repr

/-- The inner `for keys in granule['keys']` loop of `inner_task`: probe each
key and collect a fresh `RecoverFile` (success `False`, empty `err_msg`)
for each object that exists; a probe error propagates. -/
def collectFiles (head : HeadOracle) (glacier_bucket : String) :
    List KeyEntry → Except PyErr (List RecoverFile)
  | [] => .ok []
  | ke :: kes => do
    let present ← object_exists head glacier_bucket ke.key
    let rest ← collectFiles head glacier_bucket kes
    if present then
      .ok ({ key := ke.key, dest_bucket := ke.dest_bucket,
             success := false, err_msg := "" } :: rest)
    else
      .ok rest

/-- The `for granule in granules` loop of `inner_task`: starting from the
empty dict `{}`, each iteration overwrites `copied_granule` with a copy of
the granule extended with the collected `recover_files`. -/
def buildCopiedGranule (head : HeadOracle) (glacier_bucket : String) :
    List InputGranule → Granule → Except PyErr Granule
  | [], acc => .ok acc
  | g :: gs, _ => do
    let files ← collectFiles head glacier_bucket g.keys
    buildCopiedGranule head glacier_bucket gs
      { granuleId := g.granuleId, recover_files := some files }

/-- The task event as `inner_task` reads it: the `glacier-bucket` config
value (absent models the `KeyError` branch), the `granules` list, and the
`job_id` (already ensured present by `task`). -/
structure TaskEvent where
  glacier_bucket : Option String
  granules : List InputGranule
  job_id : String
deriving DecidableEq, Repr

/-- `inner_task`'s return value: `{'granules': [copied_granule], 'job_id': ...}`. -/
structure TaskOutput where
  granule : Granule
  job_id : String
deriving DecidableEq, Repr

/-- `inner_task`: reject a missing `glacier-bucket` config and more than one
granule with `RestoreRequestError`; build `copied_granule` with the probe
loop; run `process_granule`; return the (mutated) granule and job id.  The
second component is the trace of restore/status/sleep operations (all of
which happen inside `process_granule`). -/
def inner_task (head : HeadOracle) (oracle : RestoreOracle)
    (event : TaskEvent) (max_retries : Nat) (request_time nowStr : String) :
    Except PyErr TaskOutput × List Op :=
  match event.glacier_bucket with
  | none =>
    (.error (.restoreRequestErrorMsg
      "request does not contain a config value for glacier-bucket"), [])
  | some glacier_bucket =>
    if event.granules.length > 1 then
      (.error (.restoreRequestErrorMsg
        "request_files can only accept 1 granule in the list."), [])
    else
      match buildCopiedGranule head glacier_bucket event.granules
          ⟨none, none⟩ with
      | .error e => (.error e, [])
      | .ok copied =>
        match process_granule oracle copied glacier_bucket max_retries
            event.job_id request_time nowStr with
        | (.error e, ops) => (.error e, ops)
        | (.ok files, ops) =>
          (.ok ⟨{ copied with recover_files := some files }, event.job_id⟩, ops)

/-! ## Theorems -/

/-- The `raise e` branch of `post_entry_to_queue` tests
`attempt == max_retries + 1`, but the loop only runs attempts up to
`max_retries`. -/
theorem postEntryGo_never_raises (outcome : Nat → Option String)
    (max_retries : Nat) :
    ∀ fuel attempt, attempt + fuel = max_retries + 1 →
      ∀ e, (postEntryGo outcome max_retries fuel attempt).result ≠ .raised e := by
  intro fuel
  induction fuel with
  | zero => intro attempt _ e; simp [postEntryGo]
  | succ n ih =>
    intro attempt h e
    simp only [postEntryGo]
    cases outcome attempt with
    | none => simp
    | some e' =>
      have hne : ¬ attempt = max_retries + 1 := by omega
      simp only [hne, if_false]
      exact ih (attempt + 1) (by omega) e

/-- C1: the status publisher's retry loop never re-raises the transport
error.  `range(1, max_retries + 1)` runs attempts `1..max_retries`, so the
guard `attempt == max_retries + 1` in the `except` block never fires; when
every attempt fails the function sleeps once more and returns `None`
normally.  Witnessed concretely: with `max_retries = 2` and every send
raising, the call makes 2 attempts, sleeps twice, and falls through. -/
theorem c1_queue_retry_exhaustion_returns_normally :
    (∀ (outcome : Nat → Option String) (max_retries : Nat) (e : String),
      (post_entry_to_queue outcome max_retries).result ≠ .raised e)
    ∧ post_entry_to_queue (fun _ => some "SQS transport error") 2 =
        ⟨.fellThrough, 2, 2⟩ := by
  constructor
  · intro outcome max_retries e
    exact postEntryGo_never_raises outcome max_retries max_retries 1
      (by omega) e
  · rfl

/-- C7 counterexample: the two modules' numeric codes are not a single
shared enumeration — `request_files.ORCA_STATUS_FAILED` is `4` while
`shared_recovery.OrcaStatus.FAILED.value` is `3`. -/
theorem c7_status_codes_disagree :
    ¬ (ORCA_STATUS_FAILED = OrcaStatus.FAILED.value
       ∧ ORCA_STATUS_PENDING = OrcaStatus.PENDING.value) := by
  decide

/-- C7 (amended): the PENDING codes of the two modules agree (both `1`),
but the FAILED code the orchestrator attaches (`ORCA_STATUS_FAILED = 4`)
differs from the shared enumeration's `OrcaStatus.FAILED = 3` and instead
coincides with `OrcaStatus.SUCCESS = 4`. -/
theorem c7_pending_agrees_failed_diverges :
    ORCA_STATUS_PENDING = OrcaStatus.PENDING.value
    ∧ ORCA_STATUS_FAILED = 4
    ∧ OrcaStatus.FAILED.value = 3
    ∧ ORCA_STATUS_FAILED ≠ OrcaStatus.FAILED.value
    ∧ ORCA_STATUS_FAILED = OrcaStatus.SUCCESS.value := by
  refine ⟨rfl, rfl, rfl, by decide, rfl⟩

/-- C10: an input with an empty `granules` list passes the
`len(granules) > 1` validation, reaches `process_granule` with the empty
placeholder dict `{}` (no `granuleId`, no `recover_files`), and fails there
with `KeyError('granuleId')` before any restore call, sleep, or queue
message (the trace is empty). -/
theorem c10_empty_granules_keyerror (head : HeadOracle)
    (oracle : RestoreOracle) (gb job_id : String) (max_retries : Nat)
    (request_time nowStr : String) :
    inner_task head oracle ⟨some gb, [], job_id⟩ max_retries request_time nowStr
      = (.error (.keyError "granuleId"), []) := by
  rfl

/-! ### Injectivity of the payload serialization (for the deduplication key)

The dumped JSON object is uniquely decodable on well-formed payloads: keys
and string values are delimited by quotes they cannot contain, and integer
values consist of numeric characters that the following separator never
starts with. -/

theorem digitChar_toNat {d : Nat} (h : d < 10) : (digitChar d).toNat = 48 + d := by
  interval_cases d <;> rfl

theorem map_digitChar_inj : ∀ (l1 l2 : List Nat), (∀ d ∈ l1, d < 10) →
    (∀ d ∈ l2, d < 10) → l1.map digitChar = l2.map digitChar → l1 = l2
  | [], [], _, _, _ => rfl
  | [], _ :: _, _, _, h => by simp at h
  | _ :: _, [], _, _, h => by simp at h
  | d1 :: t1, d2 :: t2, h1, h2, h => by
    simp only [List.map_cons, List.cons.injEq] at h
    have hd : d1 = d2 := by
      have hc := congrArg Char.toNat h.1
      rw [digitChar_toNat (h1 d1 (List.mem_cons_self d1 t1)),
        digitChar_toNat (h2 d2 (List.mem_cons_self d2 t2))] at hc
      omega
    have ht := map_digitChar_inj t1 t2
      (fun d hd => h1 d (List.mem_cons_of_mem _ hd))
      (fun d hd => h2 d (List.mem_cons_of_mem _ hd)) h.2
    rw [hd, ht]

theorem natChars_all_digit (n : Nat) :
    ∀ c ∈ natChars n, 48 ≤ c.toNat ∧ c.toNat ≤ 57 := by
  intro c hc
  unfold natChars at hc
  by_cases h : n = 0
  · rw [if_pos h] at hc
    simp only [List.mem_singleton] at hc
    rw [hc]; decide
  · rw [if_neg h] at hc
    obtain ⟨d, hd, hdc⟩ := List.mem_map.mp hc
    have hlt : d < 10 :=
      Nat.digits_lt_base (by norm_num) (List.mem_reverse.mp hd)
    rw [← hdc, digitChar_toNat hlt]
    omega

theorem natChars_ne_nil (n : Nat) : natChars n ≠ [] := by
  unfold natChars
  by_cases h : n = 0
  · simp [h]
  · rw [if_neg h]
    intro heq
    have hl := congrArg List.length heq
    simp only [List.length_map, List.length_reverse, List.length_nil] at hl
    exact Nat.digits_ne_nil_iff_ne_zero.mpr h (List.length_eq_zero.mp hl)

theorem natChars_inj {a b : Nat} (h : natChars a = natChars b) : a = b := by
  have hdig : ∀ n : Nat, ∀ d ∈ (Nat.digits 10 n).reverse, d < 10 := fun n d hd =>
    Nat.digits_lt_base (by norm_num) (List.mem_reverse.mp hd)
  have zeroCase : ∀ n : Nat, n ≠ 0 →
      ¬ (['0'] = (Nat.digits 10 n).reverse.map digitChar) := by
    intro n hn hcontra
    have h0 : ([0] : List Nat).map digitChar = (Nat.digits 10 n).reverse.map digitChar := by
      simpa using hcontra
    have hrev := congrArg List.reverse
      (map_digitChar_inj [0] (Nat.digits 10 n).reverse (by simp) (hdig n) h0)
    simp only [List.reverse_reverse] at hrev
    have hofd := Nat.ofDigits_digits 10 n
    rw [← hrev] at hofd
    simp [Nat.ofDigits] at hofd
    exact hn hofd.symm
  unfold natChars at h
  by_cases ha : a = 0 <;> by_cases hb : b = 0
  · rw [ha, hb]
  · rw [if_pos ha, if_neg hb] at h
    exact absurd h (zeroCase b hb)
  · rw [if_neg ha, if_pos hb] at h
    exact absurd h.symm (zeroCase a ha)
  · rw [if_neg ha, if_neg hb] at h
    have hrev := congrArg List.reverse
      (map_digitChar_inj _ _ (hdig a) (hdig b) h)
    simp only [List.reverse_reverse] at hrev
    have ha' := Nat.ofDigits_digits 10 a
    have hb' := Nat.ofDigits_digits 10 b
    rw [← ha', ← hb', hrev]

theorem intChars_all_num (n : Int) : ∀ c ∈ intChars n, isNumChar c = true := by
  intro c hc
  unfold intChars at hc
  simp only [isNumChar, Bool.or_eq_true, Bool.and_eq_true, decide_eq_true_eq]
  by_cases h : n < 0
  · rw [if_pos h] at hc
    rcases List.mem_cons.mp hc with h1 | h1
    · right; rw [h1]
    · left; exact natChars_all_digit n.natAbs c h1
  · rw [if_neg h] at hc
    left; exact natChars_all_digit n.natAbs c hc

theorem intChars_ne_nil (n : Int) : intChars n ≠ [] := by
  unfold intChars
  by_cases h : n < 0
  · simp [h]
  · rw [if_neg h]; exact natChars_ne_nil n.natAbs

theorem intChars_inj {a b : Int} (h : intChars a = intChars b) : a = b := by
  have minusCase : ∀ n m : Int, ¬ ('-' :: natChars n.natAbs = natChars m.natAbs) := by
    intro n m hcontra
    cases hnc : natChars m.natAbs with
    | nil => exact natChars_ne_nil m.natAbs hnc
    | cons c rest =>
      rw [hnc] at hcontra
      have hc : '-' = c := by injection hcontra
      have hdig := natChars_all_digit m.natAbs c
        (by rw [hnc]; exact List.mem_cons_self c rest)
      rw [← hc] at hdig
      revert hdig; decide
  unfold intChars at h
  by_cases ha : a < 0 <;> by_cases hb : b < 0
  · rw [if_pos ha, if_pos hb] at h
    have htail : natChars a.natAbs = natChars b.natAbs := by injection h
    have := natChars_inj htail
    omega
  · rw [if_pos ha, if_neg hb] at h
    exact absurd h (minusCase a b)
  · rw [if_neg ha, if_pos hb] at h
    exact absurd h.symm (minusCase b a)
  · rw [if_neg ha, if_neg hb] at h
    have := natChars_inj h
    omega

theorem quote_split : ∀ (s1 s2 r1 r2 : List Char), '"' ∉ s1 → '"' ∉ s2 →
    s1 ++ '"' :: r1 = s2 ++ '"' :: r2 → s1 = s2 ∧ r1 = r2
  | [], [], r1, r2, _, _, h => by
    simp only [List.nil_append, List.cons.injEq, true_and] at h
    exact ⟨rfl, h⟩
  | [], c :: t, r1, r2, _, h2, h => by
    exfalso
    simp only [List.nil_append, List.cons_append, List.cons.injEq] at h
    exact h2 (h.1 ▸ List.mem_cons_self c t)
  | c :: t, [], r1, r2, h1, _, h => by
    exfalso
    simp only [List.nil_append, List.cons_append, List.cons.injEq] at h
    exact h1 (h.1 ▸ List.mem_cons_self c t)
  | c1 :: t1, c2 :: t2, r1, r2, h1, h2, h => by
    simp only [List.cons_append, List.cons.injEq] at h
    obtain ⟨hs, hr⟩ := quote_split t1 t2 r1 r2
      (fun hc => h1 (List.mem_cons_of_mem _ hc))
      (fun hc => h2 (List.mem_cons_of_mem _ hc)) h.2
    exact ⟨by rw [h.1, hs], hr⟩

theorem num_split : ∀ (s1 s2 r1 r2 : List Char),
    (∀ c ∈ s1, isNumChar c = true) → (∀ c ∈ s2, isNumChar c = true) →
    (∀ c, r1.head? = some c → isNumChar c = false) →
    (∀ c, r2.head? = some c → isNumChar c = false) →
    s1 ++ r1 = s2 ++ r2 → s1 = s2 ∧ r1 = r2
  | [], [], r1, r2, _, _, _, _, h => ⟨rfl, by simpa using h⟩
  | [], c :: t, r1, r2, _, hs2, hr1, _, h => by
    exfalso
    simp only [List.nil_append, List.cons_append] at h
    have hfalse := hr1 c (by rw [h]; rfl)
    have htrue := hs2 c (List.mem_cons_self c t)
    rw [htrue] at hfalse
    exact Bool.noConfusion hfalse
  | c :: t, [], r1, r2, hs1, _, _, hr2, h => by
    exfalso
    simp only [List.nil_append, List.cons_append] at h
    have hfalse := hr2 c (by rw [← h]; rfl)
    have htrue := hs1 c (List.mem_cons_self c t)
    rw [htrue] at hfalse
    exact Bool.noConfusion hfalse
  | c1 :: t1, c2 :: t2, r1, r2, hs1, hs2, hr1, hr2, h => by
    simp only [List.cons_append, List.cons.injEq] at h
    obtain ⟨hs, hr⟩ := num_split t1 t2 r1 r2
      (fun c hc => hs1 c (List.mem_cons_of_mem _ hc))
      (fun c hc => hs2 c (List.mem_cons_of_mem _ hc)) hr1 hr2 h.2
    exact ⟨by rw [h.1, hs], hr⟩

theorem escapeChars_id : ∀ (s : List Char), (∀ c ∈ s, c ≠ '"' ∧ c ≠ '\\') →
    escapeChars s = s
  | [], _ => rfl
  | c :: t, h => by
    have hc := h c (List.mem_cons_self c t)
    have ht := escapeChars_id t (fun c hc => h c (List.mem_cons_of_mem _ hc))
    simp only [escapeChars, List.flatMap_cons] at ht ⊢
    rw [ht, show escapeChar c = [c] by simp [escapeChar, hc.1, hc.2]]
    rfl

theorem wfString_spec {s : String} (h : wfString s = true) :
    ∀ c ∈ s.data, c ≠ '"' ∧ c ≠ '\\' := by
  intro c hc
  have hw := List.all_eq_true.mp h c hc
  simp only [wfChar, Bool.and_eq_true, decide_eq_true_eq] at hw
  exact ⟨hw.1.2, hw.2⟩

theorem wfPayload_spec {d : List (String × JValue)} (h : wfPayload d = true) :
    ∀ p ∈ d, wfString p.1 = true ∧ wfValue p.2 = true := by
  intro p hp
  have hw := List.all_eq_true.mp h p hp
  simpa [Bool.and_eq_true] using hw

theorem dumpValue_split {v1 v2 : JValue} {r1 r2 : List Char}
    (hw1 : wfValue v1 = true) (hw2 : wfValue v2 = true)
    (hr1 : ∀ c, r1.head? = some c → isNumChar c = false)
    (hr2 : ∀ c, r2.head? = some c → isNumChar c = false)
    (h : dumpValue v1 ++ r1 = dumpValue v2 ++ r2) : v1 = v2 ∧ r1 = r2 := by
  have strNum : ∀ (s : String) (n : Int) (q1 q2 : List Char),
      ¬ (dumpValue (.str s) ++ q1 = dumpValue (.num n) ++ q2) := by
    intro s n q1 q2 hcontra
    simp only [dumpValue] at hcontra
    cases hnc : intChars n with
    | nil => exact intChars_ne_nil n hnc
    | cons c rest =>
      rw [hnc] at hcontra
      simp only [List.cons_append, List.cons.injEq] at hcontra
      have hnum := intChars_all_num n c
        (by rw [hnc]; exact List.mem_cons_self c rest)
      rw [← hcontra.1] at hnum
      exact absurd hnum (by decide)
  cases v1 with
  | str s1 =>
    cases v2 with
    | str s2 =>
      simp only [dumpValue] at h
      rw [escapeChars_id s1.data (wfString_spec hw1),
        escapeChars_id s2.data (wfString_spec hw2)] at h
      simp only [List.cons_append, List.append_assoc, List.singleton_append,
        List.cons.injEq, true_and] at h
      have hq1 : '"' ∉ s1.data := fun hc => ((wfString_spec hw1) _ hc).1 rfl
      have hq2 : '"' ∉ s2.data := fun hc => ((wfString_spec hw2) _ hc).1 rfl
      obtain ⟨hs, hr⟩ := quote_split _ _ _ _ hq1 hq2 h
      exact ⟨by rw [String.ext hs], hr⟩
    | num n2 => exact absurd h (strNum s1 n2 r1 r2)
  | num n1 =>
    cases v2 with
    | str s2 => exact absurd h.symm (strNum s2 n1 r2 r1)
    | num n2 =>
      simp only [dumpValue] at h
      obtain ⟨hn, hr⟩ := num_split _ _ _ _ (intChars_all_num n1)
        (intChars_all_num n2) hr1 hr2 h
      exact ⟨by rw [intChars_inj hn], hr⟩

theorem dumpPair_split {p1 p2 : String × JValue} {r1 r2 : List Char}
    (hw1 : wfString p1.1 = true ∧ wfValue p1.2 = true)
    (hw2 : wfString p2.1 = true ∧ wfValue p2.2 = true)
    (hr1 : ∀ c, r1.head? = some c → isNumChar c = false)
    (hr2 : ∀ c, r2.head? = some c → isNumChar c = false)
    (h : dumpPair p1 ++ r1 = dumpPair p2 ++ r2) : p1 = p2 ∧ r1 = r2 := by
  obtain ⟨k1, v1⟩ := p1
  obtain ⟨k2, v2⟩ := p2
  simp only [dumpPair] at h
  rw [escapeChars_id k1.data (wfString_spec hw1.1),
    escapeChars_id k2.data (wfString_spec hw2.1)] at h
  simp only [List.cons_append, List.append_assoc, List.cons.injEq, true_and] at h
  have hq1 : '"' ∉ k1.data := fun hc => ((wfString_spec hw1.1) _ hc).1 rfl
  have hq2 : '"' ∉ k2.data := fun hc => ((wfString_spec hw2.1) _ hc).1 rfl
  obtain ⟨hk, hrest⟩ := quote_split _ _ _ _ hq1 hq2 h
  simp only [List.cons.injEq, true_and] at hrest
  obtain ⟨hv, hr⟩ := dumpValue_split hw1.2 hw2.2 hr1 hr2 hrest
  have hv' : v1 = v2 := hv
  exact ⟨by rw [String.ext hk, hv'], hr⟩

theorem dumpTail_head_not_num (sepRest closeRest : List Char) (c0 : Char)
    (hc0 : isNumChar c0 = false) (ts : List (String × JValue)) :
    ∀ c, (dumpTail (',' :: sepRest) (c0 :: closeRest) ts).head? = some c →
      isNumChar c = false := by
  intro c hc
  cases ts with
  | nil =>
    simp only [dumpTail, List.head?_cons, Option.some.injEq] at hc
    rw [← hc]; exact hc0
  | cons p ps =>
    simp only [dumpTail, List.cons_append, List.head?_cons,
      Option.some.injEq] at hc
    rw [← hc]; decide

theorem dumpTail_inj (sepRest closeRest : List Char) (c0 : Char)
    (hc0n : isNumChar c0 = false) (hc0c : c0 ≠ ',') :
    ∀ (t1 t2 : List (String × JValue)),
      (∀ p ∈ t1, wfString p.1 = true ∧ wfValue p.2 = true) →
      (∀ p ∈ t2, wfString p.1 = true ∧ wfValue p.2 = true) →
      dumpTail (',' :: sepRest) (c0 :: closeRest) t1 =
        dumpTail (',' :: sepRest) (c0 :: closeRest) t2 → t1 = t2
  | [], [], _, _, _ => rfl
  | [], p :: ps, _, _, h => by
    exfalso
    simp only [dumpTail, List.cons_append, List.cons.injEq] at h
    exact hc0c h.1
  | p :: ps, [], _, _, h => by
    exfalso
    simp only [dumpTail, List.cons_append, List.cons.injEq] at h
    exact hc0c h.1.symm
  | p1 :: ps1, p2 :: ps2, hw1, hw2, h => by
    simp only [dumpTail, List.cons_append, List.append_assoc,
      List.cons.injEq, true_and] at h
    have h' := List.append_cancel_left h
    obtain ⟨hp, ht⟩ := dumpPair_split
      (hw1 p1 (List.mem_cons_self p1 ps1)) (hw2 p2 (List.mem_cons_self p2 ps2))
      (dumpTail_head_not_num sepRest closeRest c0 hc0n ps1)
      (dumpTail_head_not_num sepRest closeRest c0 hc0n ps2) h'
    rw [hp, dumpTail_inj sepRest closeRest c0 hc0n hc0c ps1 ps2
      (fun p hp => hw1 p (List.mem_cons_of_mem _ hp))
      (fun p hp => hw2 p (List.mem_cons_of_mem _ hp)) ht]

theorem dumpChars_inj (opnRest sepRest closeRest : List Char) (c0 : Char)
    (hc0n : isNumChar c0 = false) (hc0c : c0 ≠ ',')
    (hopn : ∀ o, opnRest.head? = some o → o ≠ '}') :
    ∀ (t1 t2 : List (String × JValue)),
      (∀ p ∈ t1, wfString p.1 = true ∧ wfValue p.2 = true) →
      (∀ p ∈ t2, wfString p.1 = true ∧ wfValue p.2 = true) →
      dumpChars ('{' :: opnRest) (',' :: sepRest) (c0 :: closeRest) t1 =
        dumpChars ('{' :: opnRest) (',' :: sepRest) (c0 :: closeRest) t2 →
      t1 = t2 := by
  have nilCase : ∀ (p : String × JValue) (ps : List (String × JValue)),
      ¬ (dumpChars ('{' :: opnRest) (',' :: sepRest) (c0 :: closeRest) [] =
         dumpChars ('{' :: opnRest) (',' :: sepRest) (c0 :: closeRest) (p :: ps)) := by
    intro p ps h
    simp only [dumpChars, List.cons_append, List.cons.injEq, true_and] at h
    cases hop : opnRest with
    | nil =>
      rw [hop] at h
      simp only [List.nil_append] at h
      obtain ⟨k, v⟩ := p
      simp only [dumpPair, List.cons_append, List.cons.injEq] at h
      exact absurd h.1 (by decide)
    | cons o os =>
      rw [hop] at h
      simp only [List.cons_append, List.cons.injEq] at h
      exact hopn o (by rw [hop]; rfl) h.1.symm
  intro t1 t2 hw1 hw2 h
  cases t1 with
  | nil =>
    cases t2 with
    | nil => rfl
    | cons p ps => exact absurd h (nilCase p ps)
  | cons p1 ps1 =>
    cases t2 with
    | nil => exact absurd h.symm (nilCase p1 ps1)
    | cons p2 ps2 =>
      simp only [dumpChars, List.cons_append, List.append_assoc,
        List.cons.injEq, true_and] at h
      have h' := List.append_cancel_left h
      obtain ⟨hp, ht⟩ := dumpPair_split
        (hw1 p1 (List.mem_cons_self p1 ps1)) (hw2 p2 (List.mem_cons_self p2 ps2))
        (dumpTail_head_not_num sepRest closeRest c0 hc0n ps1)
        (dumpTail_head_not_num sepRest closeRest c0 hc0n ps2) h'
      rw [hp, dumpTail_inj sepRest closeRest c0 hc0n hc0c ps1 ps2
        (fun p hp => hw1 p (List.mem_cons_of_mem _ hp))
        (fun p hp => hw2 p (List.mem_cons_of_mem _ hp)) ht]

theorem jsonDumps_inj {d1 d2 : List (String × JValue)}
    (h1 : wfPayload d1 = true) (h2 : wfPayload d2 = true)
    (h : jsonDumps d1 = jsonDumps d2) : d1 = d2 :=
  dumpChars_inj [] [' '] [] '}' (by decide) (by decide)
    (by intro o ho; simp at ho) d1 d2 (wfPayload_spec h1) (wfPayload_spec h2)
    (congrArg String.data h)

theorem jsonDumpsIndent4_inj {d1 d2 : List (String × JValue)}
    (h1 : wfPayload d1 = true) (h2 : wfPayload d2 = true)
    (h : jsonDumpsIndent4 d1 = jsonDumpsIndent4 d2) : d1 = d2 :=
  dumpChars_inj ('\n' :: [' ', ' ', ' ', ' ']) ('\n' :: [' ', ' ', ' ', ' '])
    ['}'] '\n' (by decide) (by decide)
    (by intro o ho; simp only [List.head?_cons, Option.some.injEq] at ho
        rw [← ho]; decide)
    d1 d2 (wfPayload_spec h1) (wfPayload_spec h2) (congrArg String.data h)

theorem string_append_cancel {a b c : String} (h : a ++ b = a ++ c) : b = c :=
  String.ext (by simpa [String.data_append] using congrArg String.data h)

/-- C6: in both `post_entry_to_queue` implementations the
`MessageDeduplicationId` is the exact concatenation of the table name, the
request-method value, and the serialized body; the construction is a pure
function of those inputs (identical payloads give identical keys), and for
a fixed table and method, payloads that differ anywhere give different keys
(the serialization is injective on well-formed payloads). -/
theorem c6_dedup_key_exact_concat_and_injective :
    (∀ (t : String) (m : RequestMethod) (d : List (String × JValue)),
      (requestFilesMessage t m d).dedupId = t ++ m.value ++ jsonDumpsIndent4 d)
    ∧ (∀ (t : String) (m : SharedRequestMethod) (d : List (String × JValue)),
      (sharedRecoveryMessage t m d).dedupId = t ++ m.value ++ jsonDumps d)
    ∧ (∀ (t : String) (m : RequestMethod) (d1 d2 : List (String × JValue)),
      wfPayload d1 = true → wfPayload d2 = true → d1 ≠ d2 →
      (requestFilesMessage t m d1).dedupId ≠ (requestFilesMessage t m d2).dedupId)
    ∧ (∀ (t : String) (m : SharedRequestMethod) (d1 d2 : List (String × JValue)),
      wfPayload d1 = true → wfPayload d2 = true → d1 ≠ d2 →
      (sharedRecoveryMessage t m d1).dedupId ≠ (sharedRecoveryMessage t m d2).dedupId) := by
  refine ⟨fun _ _ _ => rfl, fun _ _ _ => rfl, ?_, ?_⟩
  · intro t m d1 d2 h1 h2 hne heq
    have heq' : (t ++ m.value) ++ jsonDumpsIndent4 d1 =
        (t ++ m.value) ++ jsonDumpsIndent4 d2 := heq
    exact hne (jsonDumpsIndent4_inj h1 h2 (string_append_cancel heq'))
  · intro t m d1 d2 h1 h2 hne heq
    have heq' : (t ++ m.value) ++ jsonDumps d1 =
        (t ++ m.value) ++ jsonDumps d2 := heq
    exact hne (jsonDumps_inj h1 h2 (string_append_cancel heq'))

/-- C6 witness: two concrete payloads differing only in `last_update` are
well-formed, distinct, and receive distinct deduplication keys from both
publishers. -/
theorem c6_dedup_key_witness :
    wfPayload [("job_id", JValue.str "j"), ("last_update", JValue.str "t1")] = true
    ∧ wfPayload [("job_id", JValue.str "j"), ("last_update", JValue.str "t2")] = true
    ∧ [("job_id", JValue.str "j"), ("last_update", JValue.str "t1")]
        ≠ [("job_id", JValue.str "j"), ("last_update", JValue.str "t2")]
    ∧ (requestFilesMessage "orca_recoverfile" .POST
        [("job_id", JValue.str "j"), ("last_update", JValue.str "t1")]).dedupId
      ≠ (requestFilesMessage "orca_recoverfile" .POST
        [("job_id", JValue.str "j"), ("last_update", JValue.str "t2")]).dedupId
    ∧ (sharedRecoveryMessage "orca_recoverfile" .UPDATE_FILE
        [("job_id", JValue.str "j"), ("last_update", JValue.str "t1")]).dedupId
      ≠ (sharedRecoveryMessage "orca_recoverfile" .UPDATE_FILE
        [("job_id", JValue.str "j"), ("last_update", JValue.str "t2")]).dedupId :=
  ⟨by decide, by decide, by decide,
   c6_dedup_key_exact_concat_and_injective.2.2.1 "orca_recoverfile" .POST _ _
     (by decide) (by decide) (by decide),
   c6_dedup_key_exact_concat_and_injective.2.2.2 "orca_recoverfile" .UPDATE_FILE _ _
     (by decide) (by decide) (by decide)⟩

/-! ### Basic facts about single file steps and passes -/

theorem fileStep_of_success (oracle : RestoreOracle) (c : Ctx) (a : Nat)
    (f : RecoverFile) (h : f.success = true) :
    fileStep oracle c a f = (f, []) := by
  simp [fileStep, h]

theorem fileStep_of_accept (oracle : RestoreOracle) (c : Ctx) (a : Nat)
    (f : RecoverFile) (h1 : f.success = false) (h2 : oracle f.key a = none) :
    fileStep oracle c a f = (⟨f.key, f.dest_bucket, true, ""⟩,
      [.restoreCall f.key a,
       .postFileStatus (pendingFileData c ⟨f.key, f.dest_bucket, true, ""⟩)]) := by
  simp [fileStep, h1, h2]

theorem fileStep_of_reject (oracle : RestoreOracle) (c : Ctx) (a : Nat)
    (f : RecoverFile) (m : String) (h1 : f.success = false)
    (h2 : oracle f.key a = some m) :
    fileStep oracle c a f = ({ f with err_msg := m }, [.restoreCall f.key a]) := by
  simp [fileStep, h1, h2]

theorem fileStep_key (oracle : RestoreOracle) (c : Ctx) (a : Nat)
    (f : RecoverFile) :
    ((fileStep oracle c a f).1).key = f.key
    ∧ ((fileStep oracle c a f).1).dest_bucket = f.dest_bucket := by
  cases h : f.success with
  | true => rw [fileStep_of_success oracle c a f h]; exact ⟨rfl, rfl⟩
  | false =>
    cases ho : oracle f.key a with
    | none => rw [fileStep_of_accept oracle c a f h ho]; exact ⟨rfl, rfl⟩
    | some m => rw [fileStep_of_reject oracle c a f m h ho]; exact ⟨rfl, rfl⟩

theorem fileStep_success_mono (oracle : RestoreOracle) (c : Ctx) (a : Nat)
    (f : RecoverFile) (h : f.success = true) :
    ((fileStep oracle c a f).1).success = true := by
  rw [fileStep_of_success oracle c a f h]; exact h

theorem passFiles_fst (oracle : RestoreOracle) (c : Ctx) (a : Nat)
    (files : List RecoverFile) :
    (passFiles oracle c a files).1 = files.map fun f => (fileStep oracle c a f).1 :=
  rfl

theorem passFiles_snd (oracle : RestoreOracle) (c : Ctx) (a : Nat)
    (files : List RecoverFile) :
    (passFiles oracle c a files).2 = files.flatMap fun f => (fileStep oracle c a f).2 :=
  rfl

theorem passFiles_keys (oracle : RestoreOracle) (c : Ctx) (a : Nat)
    (files : List RecoverFile) :
    (passFiles oracle c a files).1.map (·.key) = files.map (·.key) := by
  rw [passFiles_fst, List.map_map]
  exact List.map_congr_left fun f _ => (fileStep_key oracle c a f).1

theorem passFiles_of_all_success (oracle : RestoreOracle) (c : Ctx) (a : Nat) :
    ∀ files : List RecoverFile, (∀ f ∈ files, f.success = true) →
      passFiles oracle c a files = (files, [])
  | [], _ => rfl
  | f :: fs, h => by
    have hf := fileStep_of_success oracle c a f (h f (List.mem_cons_self f fs))
    have ht := passFiles_of_all_success oracle c a fs
      (fun g hg => h g (List.mem_cons_of_mem _ hg))
    simp only [passFiles, List.map_cons, List.flatMap_cons, hf,
      Prod.mk.injEq, List.cons.injEq, true_and, List.nil_append] at ht ⊢
    exact ht

/-- Every operation a pass emits comes from some still-unsuccessful file of
the pass: either the restore call plus the PENDING post (oracle accepted) or
just the restore call (oracle rejected), always at the pass's attempt
number. -/
theorem passFiles_ops_mem (oracle : RestoreOracle) (c : Ctx) (a : Nat)
    (files : List RecoverFile) (op : Op)
    (hop : op ∈ (passFiles oracle c a files).2) :
    ∃ f ∈ files, f.success = false ∧
      ((oracle f.key a = none ∧
        (op = .restoreCall f.key a ∨
         op = .postFileStatus (pendingFileData c ⟨f.key, f.dest_bucket, true, ""⟩)))
       ∨ (∃ m, oracle f.key a = some m ∧ op = .restoreCall f.key a)) := by
  rw [passFiles_snd] at hop
  obtain ⟨f, hf, hmem⟩ := List.mem_flatMap.mp hop
  refine ⟨f, hf, ?_⟩
  cases hs : f.success with
  | true => rw [fileStep_of_success oracle c a f hs] at hmem; simp at hmem
  | false =>
    cases ho : oracle f.key a with
    | none =>
      rw [fileStep_of_accept oracle c a f hs ho] at hmem
      simp only [List.mem_cons, List.not_mem_nil, or_false] at hmem
      exact ⟨rfl, Or.inl ⟨rfl, hmem⟩⟩
    | some m =>
      rw [fileStep_of_reject oracle c a f m hs ho] at hmem
      simp only [List.mem_cons, List.not_mem_nil, or_false] at hmem
      exact ⟨rfl, Or.inr ⟨m, rfl, hmem⟩⟩

/-! ### Counting operations -/

theorem countOps_nil (p : Op → Bool) : countOps p [] = 0 := rfl

theorem countOps_append (p : Op → Bool) (l1 l2 : List Op) :
    countOps p (l1 ++ l2) = countOps p l1 + countOps p l2 := by
  simp [countOps, List.filter_append]

theorem countOps_cons (p : Op → Bool) (x : Op) (l : List Op) :
    countOps p (x :: l) = (if p x then 1 else 0) + countOps p l := by
  by_cases h : p x <;> simp [countOps, List.filter_cons, h, Nat.add_comm]

theorem countOps_eq_zero {p : Op → Bool} {l : List Op}
    (h : ∀ x ∈ l, p x = false) : countOps p l = 0 := by
  have : l.filter p = [] := List.filter_eq_nil_iff.mpr (by simpa using h)
  simp [countOps, this]

/-! ### Payload-shape facts for the emitted file events -/

theorem pendingFileData_keypath (c : Ctx) (f : RecoverFile) (K : String) :
    (("key_path", JValue.str K) ∈ pendingFileData c f) ↔ K = f.key := by
  simp [pendingFileData, fileStatusNewData, optField]

theorem pendingFileData_status_pending (c : Ctx) (f : RecoverFile) :
    ("status_id", JValue.num ORCA_STATUS_PENDING) ∈ pendingFileData c f := by
  simp [pendingFileData, fileStatusNewData, optField]

theorem pendingFileData_not_failed (c : Ctx) (f : RecoverFile) :
    ("status_id", JValue.num ORCA_STATUS_FAILED) ∉ pendingFileData c f := by
  simp [pendingFileData, fileStatusNewData, optField, ORCA_STATUS_FAILED,
    ORCA_STATUS_PENDING]

theorem isPendingFilePost_pendingData (c : Ctx) (f : RecoverFile) (K : String) :
    isPendingFilePost K (.postFileStatus (pendingFileData c f)) = decide (K = f.key) := by
  simp [isPendingFilePost, isFilePostFor, pendingFileData_keypath,
    pendingFileData_status_pending]

theorem isFailedFilePost_pendingData (c : Ctx) (f : RecoverFile) (K : String) :
    isFailedFilePost K (.postFileStatus (pendingFileData c f)) = false := by
  simp [isFailedFilePost, isFilePostFor, pendingFileData_not_failed c f]

theorem failedFileData_keypath (c : Ctx) (f : RecoverFile) (K : String) :
    (("key_path", JValue.str K) ∈ failedFileData c f) ↔ K = f.key := by
  simp [failedFileData, fileStatusNewData, optField]

theorem failedFileData_status_failed (c : Ctx) (f : RecoverFile) :
    ("status_id", JValue.num ORCA_STATUS_FAILED) ∈ failedFileData c f := by
  simp [failedFileData, fileStatusNewData, optField]

theorem failedFileData_not_pending (c : Ctx) (f : RecoverFile) :
    ("status_id", JValue.num ORCA_STATUS_PENDING) ∉ failedFileData c f := by
  simp [failedFileData, fileStatusNewData, optField, ORCA_STATUS_FAILED,
    ORCA_STATUS_PENDING]

theorem isPendingFilePost_failedData (c : Ctx) (f : RecoverFile) (K : String) :
    isPendingFilePost K (.postFileStatus (failedFileData c f)) = false := by
  simp [isPendingFilePost, isFilePostFor, failedFileData_not_pending c f]

theorem failedFileData_no_completion_time (c : Ctx) (f : RecoverFile) :
    ∀ p ∈ failedFileData c f, p.1 ≠ "completion_time" := by
  intro p hp
  have hall : (failedFileData c f).all (fun q => q.1 != "completion_time") = true := rfl
  simpa using List.all_eq_true.mp hall p hp

/-! ### Branch equations for the retry loop -/

theorem retryLoop_zero (oracle : RestoreOracle) (c : Ctx) (mr a : Nat)
    (files : List RecoverFile) : retryLoop oracle c mr 0 a files = (files, []) :=
  rfl

theorem retryLoop_succ_break (oracle : RestoreOracle) (c : Ctx)
    (mr fuel a : Nat) (files : List RecoverFile) (hcond : a + 1 ≤ mr + 1)
    (hall : (passFiles oracle c a files).1.all (·.success) = true) :
    retryLoop oracle c mr (fuel + 1) a files = passFiles oracle c a files := by
  simp [retryLoop, hcond, hall]

theorem retryLoop_succ_cont (oracle : RestoreOracle) (c : Ctx)
    (mr fuel a : Nat) (files : List RecoverFile) (hcond : a + 1 ≤ mr + 1)
    (hall : (passFiles oracle c a files).1.all (·.success) = false) :
    retryLoop oracle c mr (fuel + 1) a files =
      ((retryLoop oracle c mr fuel (a + 1) (passFiles oracle c a files).1).1,
       (passFiles oracle c a files).2 ++ Op.sleepOp ::
         (retryLoop oracle c mr fuel (a + 1) (passFiles oracle c a files).1).2) := by
  simp [retryLoop, hcond, hall]

theorem retryLoop_succ_last (oracle : RestoreOracle) (c : Ctx)
    (mr fuel a : Nat) (files : List RecoverFile) (hcond : ¬ a + 1 ≤ mr + 1) :
    retryLoop oracle c mr (fuel + 1) a files = passFiles oracle c a files := by
  simp [retryLoop, hcond]

/-! ### Failed files carry the most recent oracle error message -/

theorem passFiles_failed_err (oracle : RestoreOracle) (c : Ctx) (a : Nat)
    (hmsg : ∀ k i m, oracle k i = some m → m ≠ "")
    (files : List RecoverFile) :
    ∀ f ∈ (passFiles oracle c a files).1, f.success = false → f.err_msg ≠ "" := by
  intro f hf hs
  rw [passFiles_fst] at hf
  obtain ⟨g, hg, rfl⟩ := List.mem_map.mp hf
  cases hgs : g.success with
  | true =>
    rw [fileStep_of_success oracle c a g hgs] at hs
    rw [hgs] at hs
    exact Bool.noConfusion hs
  | false =>
    cases ho : oracle g.key a with
    | none =>
      rw [fileStep_of_accept oracle c a g hgs ho] at hs
      exact Bool.noConfusion hs
    | some m =>
      rw [fileStep_of_reject oracle c a g m hgs ho]
      exact hmsg g.key a m ho

theorem retryLoop_failed_err (oracle : RestoreOracle) (c : Ctx) (mr : Nat)
    (hmsg : ∀ k i m, oracle k i = some m → m ≠ "") :
    ∀ (fuel a : Nat) (files : List RecoverFile), 1 ≤ fuel →
      ∀ f ∈ (retryLoop oracle c mr fuel a files).1, f.success = false →
        f.err_msg ≠ "" := by
  intro fuel
  induction fuel with
  | zero => intro a files h; omega
  | succ n ih =>
    intro a files _
    by_cases hcond : a + 1 ≤ mr + 1
    · cases hall : (passFiles oracle c a files).1.all (·.success) with
      | true =>
        rw [retryLoop_succ_break oracle c mr n a files hcond hall]
        exact passFiles_failed_err oracle c a hmsg files
      | false =>
        rw [retryLoop_succ_cont oracle c mr n a files hcond hall]
        cases n with
        | zero =>
          rw [retryLoop_zero]
          exact passFiles_failed_err oracle c a hmsg files
        | succ k =>
          exact ih (a + 1) (passFiles oracle c a files).1 (by omega)
    · rw [retryLoop_succ_last oracle c mr n a files hcond]
      exact passFiles_failed_err oracle c a hmsg files

/-- C3: `process_granule` raises `RestoreRequestError` if and only if some
file's `success` is still false after the retry loop; the error carries
exactly the mutated per-file results, in which every failed file holds the
(non-empty) message of its most recent restore error; when every file
succeeded, the call returns the mutated files normally. -/
theorem c3_error_iff_any_failure (oracle : RestoreOracle)
    (gid gb jid rt now : String) (mr : Nat) (files0 : List RecoverFile)
    (hmsg : ∀ k i m, oracle k i = some m → m ≠ "") :
    (((process_granule oracle ⟨some gid, some files0⟩ gb mr jid rt now).1 =
        .error (.restoreRequestError (finalFiles oracle ⟨jid, gid, gb, rt, now⟩ mr files0)))
      ↔ ∃ f ∈ finalFiles oracle ⟨jid, gid, gb, rt, now⟩ mr files0, f.success = false)
    ∧ (((process_granule oracle ⟨some gid, some files0⟩ gb mr jid rt now).1 =
        .ok (finalFiles oracle ⟨jid, gid, gb, rt, now⟩ mr files0))
      ↔ ∀ f ∈ finalFiles oracle ⟨jid, gid, gb, rt, now⟩ mr files0, f.success = true)
    ∧ (∀ f ∈ finalFiles oracle ⟨jid, gid, gb, rt, now⟩ mr files0,
        f.success = false → f.err_msg ≠ "") := by
  have hfin : finalFiles oracle ⟨jid, gid, gb, rt, now⟩ mr files0 =
      (retryLoop oracle ⟨jid, gid, gb, rt, now⟩ mr (mr + 1) 1 files0).1 := rfl
  have hproc : (process_granule oracle ⟨some gid, some files0⟩ gb mr jid rt now).1 =
      if (retryLoop oracle ⟨jid, gid, gb, rt, now⟩ mr (mr + 1) 1 files0).1.all (·.success)
      then .ok (retryLoop oracle ⟨jid, gid, gb, rt, now⟩ mr (mr + 1) 1 files0).1
      else .error (.restoreRequestError
        (retryLoop oracle ⟨jid, gid, gb, rt, now⟩ mr (mr + 1) 1 files0).1) := by
    simp only [process_granule]
    split <;> rfl
  refine ⟨?_, ?_, ?_⟩
  · cases hall : (retryLoop oracle ⟨jid, gid, gb, rt, now⟩ mr (mr + 1) 1 files0).1.all
        (·.success) with
    | true =>
      have hres : (process_granule oracle ⟨some gid, some files0⟩ gb mr jid rt now).1 =
          .ok (retryLoop oracle ⟨jid, gid, gb, rt, now⟩ mr (mr + 1) 1 files0).1 := by
        rw [hproc, if_pos hall]
      rw [hfin, hres]
      constructor
      · intro h; exact Except.noConfusion h
      · rintro ⟨f, hf, hs⟩
        have h2 : f.success = true := List.all_eq_true.mp hall f hf
        rw [hs] at h2
        exact Bool.noConfusion h2
    | false =>
      have hres : (process_granule oracle ⟨some gid, some files0⟩ gb mr jid rt now).1 =
          .error (.restoreRequestError
            (retryLoop oracle ⟨jid, gid, gb, rt, now⟩ mr (mr + 1) 1 files0).1) := by
        rw [hproc, if_neg (by simp [hall])]
      rw [hfin, hres]
      constructor
      · intro _
        obtain ⟨f, hf, hs⟩ := List.all_eq_false.mp hall
        exact ⟨f, hf, Bool.eq_false_iff.mpr hs⟩
      · intro _; rfl
  · cases hall : (retryLoop oracle ⟨jid, gid, gb, rt, now⟩ mr (mr + 1) 1 files0).1.all
        (·.success) with
    | true =>
      have hres : (process_granule oracle ⟨some gid, some files0⟩ gb mr jid rt now).1 =
          .ok (retryLoop oracle ⟨jid, gid, gb, rt, now⟩ mr (mr + 1) 1 files0).1 := by
        rw [hproc, if_pos hall]
      rw [hfin, hres]
      constructor
      · intro _ f hf; exact List.all_eq_true.mp hall f hf
      · intro _; rfl
    | false =>
      have hres : (process_granule oracle ⟨some gid, some files0⟩ gb mr jid rt now).1 =
          .error (.restoreRequestError
            (retryLoop oracle ⟨jid, gid, gb, rt, now⟩ mr (mr + 1) 1 files0).1) := by
        rw [hproc, if_neg (by simp [hall])]
      rw [hfin, hres]
      constructor
      · intro h; exact Except.noConfusion h
      · intro h
        obtain ⟨f, hf, hs⟩ := List.all_eq_false.mp hall
        exact absurd (h f hf) hs
  · rw [hfin]
    exact retryLoop_failed_err oracle ⟨jid, gid, gb, rt, now⟩ mr hmsg (mr + 1) 1
      files0 (by omega)

/-- C3 witness: a one-file granule whose restore is rejected with
`"AccessDenied"` on the single attempt (`max_retries = 0`). -/
theorem c3_error_iff_any_failure_witness :
    (∀ k i m, (fun _ _ => some "AccessDenied" : RestoreOracle) k i = some m → m ≠ "")
    ∧ ((((process_granule (fun _ _ => some "AccessDenied")
          ⟨some "G1", some [⟨"f1", "db", false, ""⟩]⟩ "gb" 0 "j" "rt" "now").1 =
        .error (.restoreRequestError
          (finalFiles (fun _ _ => some "AccessDenied") ⟨"j", "G1", "gb", "rt", "now"⟩ 0
            [⟨"f1", "db", false, ""⟩])))
      ↔ ∃ f ∈ finalFiles (fun _ _ => some "AccessDenied") ⟨"j", "G1", "gb", "rt", "now"⟩ 0
          [⟨"f1", "db", false, ""⟩], f.success = false)
    ∧ (((process_granule (fun _ _ => some "AccessDenied")
          ⟨some "G1", some [⟨"f1", "db", false, ""⟩]⟩ "gb" 0 "j" "rt" "now").1 =
        .ok (finalFiles (fun _ _ => some "AccessDenied") ⟨"j", "G1", "gb", "rt", "now"⟩ 0
          [⟨"f1", "db", false, ""⟩]))
      ↔ ∀ f ∈ finalFiles (fun _ _ => some "AccessDenied") ⟨"j", "G1", "gb", "rt", "now"⟩ 0
          [⟨"f1", "db", false, ""⟩], f.success = true)
    ∧ (∀ f ∈ finalFiles (fun _ _ => some "AccessDenied") ⟨"j", "G1", "gb", "rt", "now"⟩ 0
          [⟨"f1", "db", false, ""⟩], f.success = false → f.err_msg ≠ "")) :=
  ⟨fun _ _ m h => by injection h with h'; rw [← h']; decide,
   c3_error_iff_any_failure (fun _ _ => some "AccessDenied") "G1" "gb" "j" "rt" "now" 0
     [⟨"f1", "db", false, ""⟩]
     (fun _ _ m h => by injection h with h'; rw [← h']; decide)⟩

/-! ### Early exit: after all files succeed, nothing further happens -/

theorem passFiles_no_sleep (oracle : RestoreOracle) (c : Ctx) (a : Nat)
    (files : List RecoverFile) :
    countOps isSleep (passFiles oracle c a files).2 = 0 := by
  apply countOps_eq_zero
  intro op hop
  obtain ⟨f, _, _, hshape⟩ := passFiles_ops_mem oracle c a files op hop
  rcases hshape with ⟨_, h | h⟩ | ⟨m, _, h⟩ <;> rw [h] <;> rfl

theorem passFiles_restore_attempt (oracle : RestoreOracle) (c : Ctx) (a : Nat)
    (files : List RecoverFile) (key : String) (att : Nat)
    (h : Op.restoreCall key att ∈ (passFiles oracle c a files).2) :
    att = a ∧ ∃ f ∈ files, f.key = key ∧ f.success = false := by
  obtain ⟨f, hf, hs, hshape⟩ := passFiles_ops_mem oracle c a files _ h
  rcases hshape with ⟨_, hop | hop⟩ | ⟨m, _, hop⟩
  · injection hop with h1 h2
    exact ⟨h2, f, hf, h1.symm, hs⟩
  · exact Op.noConfusion hop
  · injection hop with h1 h2
    exact ⟨h2, f, hf, h1.symm, hs⟩

theorem iteratePasses_succ (oracle : RestoreOracle) (c : Ctx) (n a : Nat)
    (files : List RecoverFile) :
    iteratePasses oracle c (n + 1) a files =
      iteratePasses oracle c n (a + 1) (passFiles oracle c a files).1 :=
  rfl

/-- With every pass bounded in the trace: if the state reached after `n`
more passes is all-successful, the remaining loop issues restore calls only
for attempts below `a + n` and sleeps at most `n - 1` more times. -/
theorem retryLoop_stops_after_all_success (oracle : RestoreOracle) (c : Ctx)
    (mr : Nat) :
    ∀ (fuel n a : Nat) (files : List RecoverFile),
      (iteratePasses oracle c n a files).all (·.success) = true →
      (∀ key att, Op.restoreCall key att ∈ (retryLoop oracle c mr fuel a files).2 →
        att < a + n)
      ∧ countOps isSleep (retryLoop oracle c mr fuel a files).2 ≤ n - 1 := by
  intro fuel
  induction fuel with
  | zero =>
    intro n a files _
    rw [retryLoop_zero]
    exact ⟨fun key att h => absurd h (List.not_mem_nil _), by simp [countOps]⟩
  | succ fl ih =>
    intro n a files hall
    cases n with
    | zero =>
      have hsucc : ∀ f ∈ files, f.success = true := fun f hf =>
        List.all_eq_true.mp hall f hf
      have hpass : passFiles oracle c a files = (files, []) :=
        passFiles_of_all_success oracle c a files hsucc
      by_cases hcond : a + 1 ≤ mr + 1
      · have hallp : (passFiles oracle c a files).1.all (·.success) = true := by
          rw [hpass]; exact hall
        rw [retryLoop_succ_break oracle c mr fl a files hcond hallp, hpass]
        exact ⟨fun key att h => absurd h (List.not_mem_nil _), by simp [countOps]⟩
      · rw [retryLoop_succ_last oracle c mr fl a files hcond, hpass]
        exact ⟨fun key att h => absurd h (List.not_mem_nil _), by simp [countOps]⟩
    | succ m =>
      rw [iteratePasses_succ] at hall
      cases hallp : (passFiles oracle c a files).1.all (·.success) with
      | true =>
        have hbound : ∀ key att,
            Op.restoreCall key att ∈ (passFiles oracle c a files).2 →
              att < a + (m + 1) := by
          intro key att h
          have := (passFiles_restore_attempt oracle c a files key att h).1
          omega
        by_cases hcond : a + 1 ≤ mr + 1
        · rw [retryLoop_succ_break oracle c mr fl a files hcond hallp]
          exact ⟨hbound, by rw [passFiles_no_sleep]; omega⟩
        · rw [retryLoop_succ_last oracle c mr fl a files hcond]
          exact ⟨hbound, by rw [passFiles_no_sleep]; omega⟩
      | false =>
        have hm : 1 ≤ m := by
          rcases Nat.eq_zero_or_pos m with hm0 | hm0
          · rw [hm0] at hall
            rw [show iteratePasses oracle c 0 (a + 1) (passFiles oracle c a files).1 =
              (passFiles oracle c a files).1 from rfl] at hall
            rw [hall] at hallp
            exact Bool.noConfusion hallp
          · exact hm0
        by_cases hcond : a + 1 ≤ mr + 1
        · rw [retryLoop_succ_cont oracle c mr fl a files hcond hallp]
          obtain ⟨ih1, ih2⟩ := ih m (a + 1) (passFiles oracle c a files).1 hall
          constructor
          · intro key att h
            simp only [List.mem_append, List.mem_cons] at h
            rcases h with h | h | h
            · have := (passFiles_restore_attempt oracle c a files key att h).1
              omega
            · exact Op.noConfusion h
            · have := ih1 key att h
              omega
          · rw [countOps_append, countOps_cons, passFiles_no_sleep]
            simp only [isSleep, if_true]
            omega
        · rw [retryLoop_succ_last oracle c mr fl a files hcond]
          constructor
          · intro key att h
            have := (passFiles_restore_attempt oracle c a files key att h).1
            omega
          · rw [passFiles_no_sleep]; omega

/-- Every FAILED post in the post-loop sweep is for a still-unsuccessful
file of the final list. -/
theorem failedPosts_ops (c : Ctx) :
    ∀ (files : List RecoverFile) (op : Op), op ∈ failedPosts c files →
      ∃ f ∈ files, f.success = false ∧ op = .postFileStatus (failedFileData c f)
  | [], _, h => absurd h (List.not_mem_nil _)
  | f :: fs, op, h => by
    simp only [failedPosts] at h
    rcases List.mem_append.mp h with h1 | h1
    · cases hs : f.success with
      | true => rw [hs] at h1; simp at h1
      | false =>
        rw [hs] at h1
        simp only [if_neg (by simp : ¬ (false = true)), List.mem_singleton] at h1
        exact ⟨f, List.mem_cons_self f fs, hs, h1⟩
    · obtain ⟨g, hg, hgs, hop⟩ := failedPosts_ops c fs op h1
      exact ⟨g, List.mem_cons_of_mem f hg, hgs, hop⟩

/-- The full trace of `process_granule` on a well-formed granule: the job
PENDING post, then the retry-loop operations, then the FAILED sweep. -/
theorem process_granule_trace (oracle : RestoreOracle)
    (gid gb jid rt now : String) (mr : Nat) (files0 : List RecoverFile) :
    (process_granule oracle ⟨some gid, some files0⟩ gb mr jid rt now).2 =
      Op.postJobStatus (pendingJobData ⟨jid, gid, gb, rt, now⟩) ::
        ((retryLoop oracle ⟨jid, gid, gb, rt, now⟩ mr (mr + 1) 1 files0).2 ++
          failedPosts ⟨jid, gid, gb, rt, now⟩
            (retryLoop oracle ⟨jid, gid, gb, rt, now⟩ mr (mr + 1) 1 files0).1) := by
  simp only [process_granule]
  split <;> rfl

/-- C5: if after some pass `k` with `k < max_retries + 1` every file has
succeeded, `process_granule` performs no sleep after pass `k` (at most
`k - 1` sleeps happen in the whole run, i.e. only between passes up to `k`)
and issues no restore call at any attempt beyond `k`. -/
theorem c5_early_exit (oracle : RestoreOracle) (gid gb jid rt now : String)
    (mr : Nat) (files0 : List RecoverFile) (k : Nat) (hk1 : 1 ≤ k)
    (hk : k < mr + 1)
    (hall : (iteratePasses oracle ⟨jid, gid, gb, rt, now⟩ k 1 files0).all
      (·.success) = true) :
    (∀ key att, Op.restoreCall key att ∈
        (process_granule oracle ⟨some gid, some files0⟩ gb mr jid rt now).2 →
      att ≤ k)
    ∧ countOps isSleep
        (process_granule oracle ⟨some gid, some files0⟩ gb mr jid rt now).2 ≤ k - 1 := by
  obtain ⟨h1, h2⟩ := retryLoop_stops_after_all_success oracle
    ⟨jid, gid, gb, rt, now⟩ mr (mr + 1) k 1 files0 hall
  rw [process_granule_trace]
  constructor
  · intro key att h
    simp only [List.mem_cons, List.mem_append] at h
    rcases h with h | h | h
    · exact Op.noConfusion h
    · have := h1 key att h; omega
    · obtain ⟨f, _, _, hop⟩ := failedPosts_ops _ _ _ h
      exact Op.noConfusion hop
  · rw [countOps_cons, countOps_append]
    have hfail : countOps isSleep (failedPosts ⟨jid, gid, gb, rt, now⟩
        (retryLoop oracle ⟨jid, gid, gb, rt, now⟩ mr (mr + 1) 1 files0).1) = 0 := by
      apply countOps_eq_zero
      intro op hop
      obtain ⟨f, _, _, hop'⟩ := failedPosts_ops _ _ _ hop
      rw [hop']; rfl
    rw [hfail]
    have hjob : isSleep (Op.postJobStatus
        (pendingJobData ⟨jid, gid, gb, rt, now⟩)) = false := rfl
    rw [hjob]
    simp only [Bool.false_eq_true, if_false]
    omega

/-- C5 witness: one file accepted on the first pass with `max_retries = 2`,
so all files are successful after pass `k = 1 < 3`; no sleep happens and no
restore call goes beyond attempt 1. -/
theorem c5_early_exit_witness :
    1 ≤ 1 ∧ 1 < 2 + 1
    ∧ (iteratePasses (fun _ _ => none) ⟨"j", "G1", "gb", "rt", "now"⟩ 1 1
        [⟨"f1", "db", false, ""⟩]).all (·.success) = true
    ∧ ((∀ key att, Op.restoreCall key att ∈
          (process_granule (fun _ _ => none)
            ⟨some "G1", some [⟨"f1", "db", false, ""⟩]⟩ "gb" 2 "j" "rt" "now").2 →
        att ≤ 1)
      ∧ countOps isSleep
          (process_granule (fun _ _ => none)
            ⟨some "G1", some [⟨"f1", "db", false, ""⟩]⟩ "gb" 2 "j" "rt" "now").2 ≤ 1 - 1) :=
  ⟨by decide, by decide, by decide,
   c5_early_exit (fun _ _ => none) "G1" "gb" "j" "rt" "now" 2
     [⟨"f1", "db", false, ""⟩] 1 (by decide) (by decide) (by decide)⟩

/-! ### Per-file state invariants -/

theorem key_unique {files : List RecoverFile}
    (hnd : (files.map (·.key)).Nodup) {f g : RecoverFile}
    (hf : f ∈ files) (hg : g ∈ files) (h : f.key = g.key) : f = g :=
  List.inj_on_of_nodup_map hnd hf hg h

theorem collectFiles_initial (head : HeadOracle) (gb : String) :
    ∀ (keys : List KeyEntry) (files : List RecoverFile),
      collectFiles head gb keys = .ok files →
      ∀ f ∈ files, f.success = false ∧ f.err_msg = ""
  | [], files, h => by
    simp only [collectFiles] at h
    injection h with h'
    intro f hf
    rw [← h'] at hf
    exact absurd hf (List.not_mem_nil f)
  | ke :: kes, files, h => by
    simp only [collectFiles, bind, Except.bind] at h
    cases hoe : object_exists head gb ke.key with
    | error e => rw [hoe] at h; exact Except.noConfusion h
    | ok present =>
      rw [hoe] at h
      cases hrec : collectFiles head gb kes with
      | error e => rw [hrec] at h; exact Except.noConfusion h
      | ok rest =>
        rw [hrec] at h
        have hrest := collectFiles_initial head gb kes rest hrec
        cases present with
        | true =>
          simp only [if_pos] at h
          injection h with h'
          intro f hf
          rw [← h'] at hf
          rcases List.mem_cons.mp hf with h1 | h1
          · rw [h1]; exact ⟨rfl, rfl⟩
          · exact hrest f h1
        | false =>
          simp only [Bool.false_eq_true, if_false] at h
          injection h with h'
          intro f hf
          rw [← h'] at hf
          exact hrest f hf

theorem iteratePasses_preserves_success (oracle : RestoreOracle) (c : Ctx) :
    ∀ (n a : Nat) (files : List RecoverFile) (i : Nat) (f : RecoverFile),
      files[i]? = some f → f.success = true →
      (iteratePasses oracle c n a files)[i]? = some f := by
  intro n
  induction n with
  | zero => intro a files i f h _; exact h
  | succ m ih =>
    intro a files i f h hs
    rw [iteratePasses_succ]
    refine ih (a + 1) _ i f ?_ hs
    rw [passFiles_fst, List.getElem?_map, h]
    simp [fileStep_of_success oracle c a f hs]

theorem passFiles_success_clean (oracle : RestoreOracle) (c : Ctx) (a : Nat)
    (files : List RecoverFile)
    (hinv : ∀ f ∈ files, f.success = true → f.err_msg = "") :
    ∀ f ∈ (passFiles oracle c a files).1, f.success = true → f.err_msg = "" := by
  intro f hf hs
  rw [passFiles_fst] at hf
  obtain ⟨g, hg, rfl⟩ := List.mem_map.mp hf
  cases hgs : g.success with
  | true =>
    rw [fileStep_of_success oracle c a g hgs]
    exact hinv g hg hgs
  | false =>
    cases ho : oracle g.key a with
    | none => rw [fileStep_of_accept oracle c a g hgs ho]
    | some m =>
      rw [fileStep_of_reject oracle c a g m hgs ho] at hs
      have hgs' : g.success = true := hs
      rw [hgs] at hgs'
      exact Bool.noConfusion hgs'

theorem iteratePasses_success_clean (oracle : RestoreOracle) (c : Ctx) :
    ∀ (n a : Nat) (files : List RecoverFile),
      (∀ f ∈ files, f.success = true → f.err_msg = "") →
      ∀ f ∈ iteratePasses oracle c n a files, f.success = true → f.err_msg = "" := by
  intro n
  induction n with
  | zero => intro a files hinv; exact hinv
  | succ m ih =>
    intro a files hinv
    rw [iteratePasses_succ]
    exact ih (a + 1) _ (passFiles_success_clean oracle c a files hinv)

theorem retryLoop_no_restore_for_success (oracle : RestoreOracle) (c : Ctx)
    (mr : Nat) :
    ∀ (fuel a : Nat) (files : List RecoverFile) (f : RecoverFile),
      (files.map (·.key)).Nodup → f ∈ files → f.success = true →
      ∀ att, Op.restoreCall f.key att ∉ (retryLoop oracle c mr fuel a files).2 := by
  intro fuel
  induction fuel with
  | zero =>
    intro a files f _ _ _ att h
    rw [retryLoop_zero] at h
    exact absurd h (List.not_mem_nil _)
  | succ n ih =>
    intro a files f hnd hf hs att
    have hpassmem : Op.restoreCall f.key att ∉ (passFiles oracle c a files).2 := by
      intro h
      obtain ⟨_, g, hg, hkey, hgs⟩ := passFiles_restore_attempt oracle c a files
        f.key att h
      rw [key_unique hnd hg hf hkey] at hgs
      rw [hs] at hgs
      exact Bool.noConfusion hgs
    by_cases hcond : a + 1 ≤ mr + 1
    · cases hallp : (passFiles oracle c a files).1.all (·.success) with
      | true =>
        rw [retryLoop_succ_break oracle c mr n a files hcond hallp]
        exact hpassmem
      | false =>
        rw [retryLoop_succ_cont oracle c mr n a files hcond hallp]
        intro h
        simp only [List.mem_append, List.mem_cons] at h
        rcases h with h | h | h
        · exact hpassmem h
        · exact Op.noConfusion h
        · have hf' : f ∈ (passFiles oracle c a files).1 := by
            rw [passFiles_fst]
            exact List.mem_map.mpr ⟨f, hf, by rw [fileStep_of_success oracle c a f hs]⟩
          have hnd' : ((passFiles oracle c a files).1.map (·.key)).Nodup := by
            rw [passFiles_keys]; exact hnd
          exact ih (a + 1) (passFiles oracle c a files).1 f hnd' hf' hs att h
    · rw [retryLoop_succ_last oracle c mr n a files hcond]
      exact hpassmem

theorem retryLoop_state_is_iterate (oracle : RestoreOracle) (c : Ctx)
    (mr : Nat) :
    ∀ (fuel a : Nat) (files : List RecoverFile), ∃ n, n ≤ fuel ∧
      (retryLoop oracle c mr fuel a files).1 = iteratePasses oracle c n a files := by
  intro fuel
  induction fuel with
  | zero => intro a files; exact ⟨0, Nat.le_refl 0, rfl⟩
  | succ m ih =>
    intro a files
    by_cases hcond : a + 1 ≤ mr + 1
    · cases hallp : (passFiles oracle c a files).1.all (·.success) with
      | true =>
        refine ⟨1, by omega, ?_⟩
        rw [retryLoop_succ_break oracle c mr m a files hcond hallp]
        rfl
      | false =>
        obtain ⟨n, hn, heq⟩ := ih (a + 1) (passFiles oracle c a files).1
        refine ⟨n + 1, by omega, ?_⟩
        rw [retryLoop_succ_cont oracle c mr m a files hcond hallp,
          iteratePasses_succ]
        exact heq
    · refine ⟨1, by omega, ?_⟩
      rw [retryLoop_succ_last oracle c mr m a files hcond]
      rfl

/-- C9: per-file state invariants of the orchestrator: (1) files enter the
retry loop from `inner_task` with `success = false` and `err_msg = ""`;
(2) a file whose `success` is true is never modified by any later pass;
(3) no restore call is ever issued again for a file whose `success` is
already true; (4) in every reachable pass state, `success = true` implies
`err_msg` was cleared to the empty string (it is cleared at the moment
success is set); (5) the loop's final state is one of the reachable pass
states, so (2) and (4) cover the whole run. -/
theorem c9_success_invariants :
    (∀ (head : HeadOracle) (gb : String) (keys : List KeyEntry)
        (files : List RecoverFile), collectFiles head gb keys = .ok files →
        ∀ f ∈ files, f.success = false ∧ f.err_msg = "")
    ∧ (∀ (oracle : RestoreOracle) (c : Ctx) (n a : Nat)
        (files : List RecoverFile) (i : Nat) (f : RecoverFile),
        files[i]? = some f → f.success = true →
        (iteratePasses oracle c n a files)[i]? = some f)
    ∧ (∀ (oracle : RestoreOracle) (c : Ctx) (mr fuel a : Nat)
        (files : List RecoverFile) (f : RecoverFile),
        (files.map (·.key)).Nodup → f ∈ files → f.success = true →
        ∀ att, Op.restoreCall f.key att ∉ (retryLoop oracle c mr fuel a files).2)
    ∧ (∀ (oracle : RestoreOracle) (c : Ctx) (n a : Nat)
        (files : List RecoverFile),
        (∀ f ∈ files, f.success = true → f.err_msg = "") →
        ∀ f ∈ iteratePasses oracle c n a files, f.success = true → f.err_msg = "")
    ∧ (∀ (oracle : RestoreOracle) (c : Ctx) (mr fuel a : Nat)
        (files : List RecoverFile), ∃ n, n ≤ fuel ∧
        (retryLoop oracle c mr fuel a files).1 = iteratePasses oracle c n a files) :=
  ⟨fun head gb keys files h => collectFiles_initial head gb keys files h,
   fun oracle c n a files i f h hs =>
     iteratePasses_preserves_success oracle c n a files i f h hs,
   fun oracle c mr fuel a files f hnd hf hs =>
     retryLoop_no_restore_for_success oracle c mr fuel a files f hnd hf hs,
   fun oracle c n a files hinv =>
     iteratePasses_success_clean oracle c n a files hinv,
   fun oracle c mr fuel a files =>
     retryLoop_state_is_iterate oracle c mr fuel a files⟩

/-- C9 witness: concrete instances — a probe-built file starts
`success = false` with empty `err_msg`, and a file already successful never
gets another restore call in a three-pass loop. -/
theorem c9_success_invariants_witness :
    collectFiles (fun _ _ => .ok) "gb" [⟨"k1", "b1"⟩] = .ok [⟨"k1", "b1", false, ""⟩]
    ∧ (∀ f ∈ ([⟨"k1", "b1", false, ""⟩] : List RecoverFile),
        f.success = false ∧ f.err_msg = "")
    ∧ (([⟨"f1", "db", true, ""⟩] : List RecoverFile).map (·.key)).Nodup
    ∧ (∀ att, Op.restoreCall "f1" att ∉
        (retryLoop (fun _ _ => none) ⟨"j", "G", "gb", "rt", "now"⟩ 2 3 1
          [⟨"f1", "db", true, ""⟩]).2) :=
  ⟨rfl,
   c9_success_invariants.1 (fun _ _ => .ok) "gb" [⟨"k1", "b1"⟩]
     [⟨"k1", "b1", false, ""⟩] rfl,
   by decide,
   c9_success_invariants.2.2.1 (fun _ _ => none) ⟨"j", "G", "gb", "rt", "now"⟩
     2 3 1 [⟨"f1", "db", true, ""⟩] ⟨"f1", "db", true, ""⟩
     (by decide) (by decide) (by decide)⟩

/-! ### One PENDING file event per file, at its first successful pass -/

theorem infix_extend_left {α : Type} (s : List α) {l t : List α}
    (h : l <:+: t) : l <:+: s ++ t := by
  obtain ⟨u, v, rfl⟩ := h
  exact ⟨s ++ u, v, by simp⟩

theorem infix_extend_right {α : Type} {l s : List α} (t : List α)
    (h : l <:+: s) : l <:+: s ++ t := by
  obtain ⟨u, v, rfl⟩ := h
  exact ⟨u, v ++ t, by simp⟩

/-- No PENDING post for key `K` comes out of a pass in which no
still-unsuccessful file with key `K` has its restore accepted. -/
theorem passFiles_pending_count_zero (oracle : RestoreOracle) (c : Ctx)
    (a : Nat) (files : List RecoverFile) (K : String)
    (h : ∀ f ∈ files, f.key = K → f.success = false → oracle f.key a ≠ none) :
    countOps (isPendingFilePost K) (passFiles oracle c a files).2 = 0 := by
  apply countOps_eq_zero
  intro op hop
  obtain ⟨f, hf, hs, hshape⟩ := passFiles_ops_mem oracle c a files op hop
  rcases hshape with ⟨ho, hop' | hop'⟩ | ⟨m, _, hop'⟩
  · rw [hop']; rfl
  · rw [hop', isPendingFilePost_pendingData]
    by_cases hk : K = f.key
    · exact absurd ho (h f hf hk.symm hs)
    · simp [hk]
  · rw [hop']; rfl

/-- A pass in which the unique still-unsuccessful file with key `K` has its
restore accepted emits exactly one PENDING post for `K`, right after the
restore call of that pass. -/
theorem passFiles_pending_count_one (oracle : RestoreOracle) (c : Ctx)
    (a : Nat) :
    ∀ (files : List RecoverFile) (f : RecoverFile),
      (files.map (·.key)).Nodup → f ∈ files → f.success = false →
      oracle f.key a = none →
      countOps (isPendingFilePost f.key) (passFiles oracle c a files).2 = 1
      ∧ [Op.restoreCall f.key a,
         Op.postFileStatus (pendingFileData c ⟨f.key, f.dest_bucket, true, ""⟩)]
          <:+: (passFiles oracle c a files).2
  | [], f, _, hf, _, _ => absurd hf (List.not_mem_nil f)
  | g :: gs, f, hnd, hf, hs, ho => by
    have hops : (passFiles oracle c a (g :: gs)).2 =
        (fileStep oracle c a g).2 ++ (passFiles oracle c a gs).2 := by
      rw [passFiles_snd, passFiles_snd, List.flatMap_cons]
    have hnd' : (gs.map (·.key)).Nodup := by
      simp only [List.map_cons, List.nodup_cons] at hnd
      exact hnd.2
    have hgkey : g.key ∉ gs.map (·.key) := by
      simp only [List.map_cons, List.nodup_cons] at hnd
      exact hnd.1
    rcases List.mem_cons.mp hf with rfl | hmem
    · have hstep := fileStep_of_accept oracle c a f hs ho
      have hzero : countOps (isPendingFilePost f.key)
          (passFiles oracle c a gs).2 = 0 := by
        apply passFiles_pending_count_zero
        intro h hh hk _
        exfalso
        apply hgkey
        rw [← hk]
        exact List.mem_map.mpr ⟨h, hh, rfl⟩
      constructor
      · rw [hops, countOps_append, hzero, hstep]
        simp only [countOps_cons]
        rw [show isPendingFilePost f.key (Op.restoreCall f.key a) = false from rfl,
          isPendingFilePost_pendingData]
        simp [countOps_nil]
      · rw [hops, hstep]
        exact ⟨[], (passFiles oracle c a gs).2, rfl⟩
    · have hkne : f.key ≠ g.key := by
        intro heq
        apply hgkey
        rw [← heq]
        exact List.mem_map.mpr ⟨f, hmem, rfl⟩
      obtain ⟨ih1, ih2⟩ := passFiles_pending_count_one oracle c a gs f hnd' hmem hs ho
      have hstepzero : countOps (isPendingFilePost f.key) (fileStep oracle c a g).2 = 0 := by
        apply countOps_eq_zero
        intro op hop
        cases hgs : g.success with
        | true => rw [fileStep_of_success oracle c a g hgs] at hop; simp at hop
        | false =>
          cases hgo : oracle g.key a with
          | none =>
            rw [fileStep_of_accept oracle c a g hgs hgo] at hop
            simp only [List.mem_cons, List.not_mem_nil, or_false] at hop
            rcases hop with rfl | rfl
            · rfl
            · rw [isPendingFilePost_pendingData]
              simp [hkne]
          | some m =>
            rw [fileStep_of_reject oracle c a g m hgs hgo] at hop
            simp only [List.mem_cons, List.not_mem_nil, or_false] at hop
            rw [hop]; rfl
      constructor
      · rw [hops, countOps_append, hstepzero, ih1]
      · rw [hops]
        exact infix_extend_left _ ih2

theorem failedPosts_all_success (c : Ctx) :
    ∀ files : List RecoverFile, (∀ f ∈ files, f.success = true) →
      failedPosts c files = []
  | [], _ => rfl
  | f :: fs, h => by
    simp only [failedPosts, h f (List.mem_cons_self f fs), if_pos,
      List.nil_append]
    exact failedPosts_all_success c fs fun g hg => h g (List.mem_cons_of_mem f hg)

theorem retryLoop_no_jobpost (oracle : RestoreOracle) (c : Ctx) (mr : Nat) :
    ∀ (fuel a : Nat) (files : List RecoverFile) (d : List (String × JValue)),
      Op.postJobStatus d ∉ (retryLoop oracle c mr fuel a files).2 := by
  intro fuel
  induction fuel with
  | zero =>
    intro a files d h
    rw [retryLoop_zero] at h
    exact absurd h (List.not_mem_nil _)
  | succ n ih =>
    intro a files d
    have hpass : Op.postJobStatus d ∉ (passFiles oracle c a files).2 := by
      intro h
      obtain ⟨f, _, _, hshape⟩ := passFiles_ops_mem oracle c a files _ h
      rcases hshape with ⟨_, hop | hop⟩ | ⟨m, _, hop⟩ <;> exact Op.noConfusion hop
    by_cases hcond : a + 1 ≤ mr + 1
    · cases hallp : (passFiles oracle c a files).1.all (·.success) with
      | true =>
        rw [retryLoop_succ_break oracle c mr n a files hcond hallp]
        exact hpass
      | false =>
        rw [retryLoop_succ_cont oracle c mr n a files hcond hallp]
        intro h
        simp only [List.mem_append, List.mem_cons] at h
        rcases h with h | h | h
        · exact hpass h
        · exact Op.noConfusion h
        · exact ih (a + 1) _ d h
    · rw [retryLoop_succ_last oracle c mr n a files hcond]
      exact hpass

/-- If the oracle accepts some attempt in `[1, mr + 1]`, there is a least
such attempt. -/
theorem exists_min_accept (oracle : RestoreOracle) (K : String) (mr : Nat)
    (h : ∃ j, 1 ≤ j ∧ j ≤ mr + 1 ∧ oracle K j = none) :
    ∃ j, 1 ≤ j ∧ j ≤ mr + 1 ∧ oracle K j = none ∧
      ∀ i, 1 ≤ i → i < j → oracle K i ≠ none := by
  have hspec := Nat.find_spec h
  refine ⟨Nat.find h, hspec.1, hspec.2.1, hspec.2.2, ?_⟩
  intro i h1 hlt hnone
  exact Nat.find_min h hlt ⟨h1, by omega, hnone⟩

/-- Core induction for C4: under the loop invariant `a + fuel = mr + 2`,
if every still-unsuccessful file's restore oracle accepts some attempt in
the remaining window (with that file's least accepted attempt recorded),
then the loop ends with every file successful, already-successful files
receive no PENDING post, and each still-unsuccessful file receives exactly
one PENDING post, emitted right after the restore call of its least
accepted attempt. -/
theorem retryLoop_eventual_success (oracle : RestoreOracle) (c : Ctx) (mr : Nat) :
    ∀ (fuel a : Nat) (files : List RecoverFile),
      1 ≤ a → a + fuel = mr + 2 →
      (files.map (·.key)).Nodup →
      (∀ f ∈ files, f.success = false →
        ∃ j, a ≤ j ∧ j ≤ a + fuel - 1 ∧ oracle f.key j = none ∧
          ∀ i, a ≤ i → i < j → oracle f.key i ≠ none) →
      (retryLoop oracle c mr fuel a files).1.all (·.success) = true
      ∧ (∀ f ∈ files, f.success = true →
          countOps (isPendingFilePost f.key)
            (retryLoop oracle c mr fuel a files).2 = 0)
      ∧ (∀ f ∈ files, f.success = false → ∀ j,
          a ≤ j → oracle f.key j = none →
          (∀ i, a ≤ i → i < j → oracle f.key i ≠ none) →
          countOps (isPendingFilePost f.key)
            (retryLoop oracle c mr fuel a files).2 = 1
          ∧ [Op.restoreCall f.key j,
             Op.postFileStatus (pendingFileData c ⟨f.key, f.dest_bucket, true, ""⟩)]
              <:+: (retryLoop oracle c mr fuel a files).2) := by
  intro fuel
  induction fuel with
  | zero =>
    intro a files ha hinv hnd hH
    have hallsucc : ∀ f ∈ files, f.success = true := by
      intro f hf
      cases hs : f.success with
      | true => rfl
      | false =>
        obtain ⟨j, hj1, hj2, _, _⟩ := hH f hf hs
        omega
    rw [retryLoop_zero]
    refine ⟨List.all_eq_true.mpr (fun f hf => hallsucc f hf), ?_, ?_⟩
    · intro f _ _; exact countOps_nil _
    · intro f hf hs
      rw [hallsucc f hf] at hs
      exact Bool.noConfusion hs
  | succ fl ih =>
    intro a files ha hinv hnd hH
    have hkeys : (passFiles oracle c a files).1.map (·.key) = files.map (·.key) :=
      passFiles_keys oracle c a files
    have hnd' : ((passFiles oracle c a files).1.map (·.key)).Nodup := by
      rw [hkeys]; exact hnd
    have hH' : ∀ f' ∈ (passFiles oracle c a files).1, f'.success = false →
        ∃ j, a + 1 ≤ j ∧ j ≤ (a + 1) + fl - 1 ∧ oracle f'.key j = none ∧
          ∀ i, a + 1 ≤ i → i < j → oracle f'.key i ≠ none := by
      intro f' hf' hs'
      rw [passFiles_fst] at hf'
      obtain ⟨g, hg, rfl⟩ := List.mem_map.mp hf'
      cases hgs : g.success with
      | true =>
        rw [fileStep_of_success oracle c a g hgs] at hs'
        rw [hgs] at hs'
        exact absurd hs' (by simp)
      | false =>
        cases hgo : oracle g.key a with
        | none =>
          rw [fileStep_of_accept oracle c a g hgs hgo] at hs'
          exact Bool.noConfusion hs'
        | some m =>
          rw [fileStep_of_reject oracle c a g m hgs hgo]
          obtain ⟨j, hj1, hj2, hjnone, hjmin⟩ := hH g hg hgs
          have hjne : j ≠ a := by
            intro h
            rw [h] at hjnone
            rw [hjnone] at hgo
            exact Option.noConfusion hgo
          refine ⟨j, by omega, by omega, hjnone, ?_⟩
          intro i hi hij
          exact hjmin i (by omega) hij
    -- a file with key K that is still unsuccessful and whose oracle rejects
    -- attempt `a` rules out any PENDING post for K in this pass, given that
    -- keys are unique
    have hzero_of_success : ∀ f ∈ files, f.success = true →
        countOps (isPendingFilePost f.key) (passFiles oracle c a files).2 = 0 := by
      intro f hf hs
      apply passFiles_pending_count_zero
      intro g hg hk hgs
      exfalso
      have hgf : g = f := key_unique hnd hg hf hk
      rw [hgf, hs] at hgs
      exact Bool.noConfusion hgs
    have hzero_of_reject : ∀ f ∈ files, f.success = false →
        ∀ m, oracle f.key a = some m →
        countOps (isPendingFilePost f.key) (passFiles oracle c a files).2 = 0 := by
      intro f hf hs m hm
      apply passFiles_pending_count_zero
      intro g hg hk hgs
      have hgf : g = f := key_unique hnd hg hf hk
      rw [hgf, hm]
      intro h
      exact Option.noConfusion h
    by_cases hcond : a + 1 ≤ mr + 1
    · cases hallp : (passFiles oracle c a files).1.all (·.success) with
      | true =>
        have hfst : (retryLoop oracle c mr (fl + 1) a files).1 =
            (passFiles oracle c a files).1 := by
          rw [retryLoop_succ_break oracle c mr fl a files hcond hallp]
        have hsnd : (retryLoop oracle c mr (fl + 1) a files).2 =
            (passFiles oracle c a files).2 := by
          rw [retryLoop_succ_break oracle c mr fl a files hcond hallp]
        refine ⟨by rw [hfst]; exact hallp, ?_, ?_⟩
        · intro f hf hs
          rw [hsnd]
          exact hzero_of_success f hf hs
        · intro f hf hs j hj1 hjnone hjmin
          -- all files are successful after this pass, so f's oracle must
          -- have accepted attempt `a`, and minimality forces `j = a`
          have hfo : oracle f.key a = none := by
            cases hfo : oracle f.key a with
            | none => rfl
            | some m =>
              exfalso
              have hmem : ((fileStep oracle c a f).1) ∈ (passFiles oracle c a files).1 := by
                rw [passFiles_fst]
                exact List.mem_map.mpr ⟨f, hf, rfl⟩
              have := List.all_eq_true.mp hallp _ hmem
              rw [fileStep_of_reject oracle c a f m hs hfo] at this
              have hsucc : f.success = true := this
              rw [hs] at hsucc
              exact Bool.noConfusion hsucc
          have hja : j = a := by
            by_contra hne
            exact hjmin a (le_refl a) (by omega) hfo
          subst hja
          rw [hsnd]
          exact passFiles_pending_count_one oracle c j files f hnd hf hs hfo
      | false =>
        have hfst : (retryLoop oracle c mr (fl + 1) a files).1 =
            (retryLoop oracle c mr fl (a + 1) (passFiles oracle c a files).1).1 := by
          rw [retryLoop_succ_cont oracle c mr fl a files hcond hallp]
        have hsnd : (retryLoop oracle c mr (fl + 1) a files).2 =
            (passFiles oracle c a files).2 ++ Op.sleepOp ::
              (retryLoop oracle c mr fl (a + 1) (passFiles oracle c a files).1).2 := by
          rw [retryLoop_succ_cont oracle c mr fl a files hcond hallp]
        have hdecomp : ∀ K, countOps (isPendingFilePost K)
            (retryLoop oracle c mr (fl + 1) a files).2 =
            countOps (isPendingFilePost K) (passFiles oracle c a files).2 +
            countOps (isPendingFilePost K)
              (retryLoop oracle c mr fl (a + 1) (passFiles oracle c a files).1).2 := by
          intro K
          rw [hsnd, countOps_append, countOps_cons,
            show isPendingFilePost K Op.sleepOp = false from rfl]
          simp
        obtain ⟨ihall, ihzero, ihone⟩ := ih (a + 1) (passFiles oracle c a files).1
          (by omega) (by omega) hnd' hH'
        refine ⟨by rw [hfst]; exact ihall, ?_, ?_⟩
        · intro f hf hs
          rw [hdecomp, hzero_of_success f hf hs]
          have hmem : f ∈ (passFiles oracle c a files).1 := by
            rw [passFiles_fst]
            exact List.mem_map.mpr ⟨f, hf, by rw [fileStep_of_success oracle c a f hs]⟩
          rw [ihzero f hmem hs]
        · intro f hf hs j hj1 hjnone hjmin
          cases hfo : oracle f.key a with
          | none =>
            have hja : j = a := by
              by_contra hne
              exact hjmin a (le_refl a) (by omega) hfo
            subst hja
            obtain ⟨hcnt1, hinf1⟩ :=
              passFiles_pending_count_one oracle c j files f hnd hf hs hfo
            have hmem : (⟨f.key, f.dest_bucket, true, ""⟩ : RecoverFile) ∈
                (passFiles oracle c j files).1 := by
              rw [passFiles_fst]
              refine List.mem_map.mpr ⟨f, hf, ?_⟩
              rw [fileStep_of_accept oracle c j f hs hfo]
            have hrec0 := ihzero ⟨f.key, f.dest_bucket, true, ""⟩ hmem rfl
            constructor
            · rw [hdecomp, hcnt1, hrec0]
            · rw [hsnd]
              exact infix_extend_right _ hinf1
          | some m =>
            have hja : a + 1 ≤ j := by
              rcases Nat.lt_or_ge a j with h | h
              · omega
              · exfalso
                have : j = a := by omega
                rw [this] at hjnone
                rw [hjnone] at hfo
                exact Option.noConfusion hfo
            have hmem : ({ f with err_msg := m } : RecoverFile) ∈
                (passFiles oracle c a files).1 := by
              rw [passFiles_fst]
              refine List.mem_map.mpr ⟨f, hf, ?_⟩
              rw [fileStep_of_reject oracle c a f m hs hfo]
            obtain ⟨hcnt1, hinf1⟩ := ihone { f with err_msg := m } hmem hs j hja
              hjnone (fun i hi hij => hjmin i (by omega) hij)
            constructor
            · rw [hdecomp, hzero_of_reject f hf hs m hfo, Nat.zero_add]
              exact hcnt1
            · rw [hsnd]
              apply infix_extend_left
              exact infix_extend_left [Op.sleepOp] hinf1
    · -- final pass of the loop: `a = mr + 1` and `fl = 0`
      have hfl : fl = 0 := by omega
      subst hfl
      have hfst : (retryLoop oracle c mr (0 + 1) a files).1 =
          (passFiles oracle c a files).1 := by
        rw [retryLoop_succ_last oracle c mr 0 a files hcond]
      have hsnd : (retryLoop oracle c mr (0 + 1) a files).2 =
          (passFiles oracle c a files).2 := by
        rw [retryLoop_succ_last oracle c mr 0 a files hcond]
      have hstepall : ∀ f ∈ files, ((fileStep oracle c a f).1).success = true := by
        intro f hf
        cases hs : f.success with
        | true => exact fileStep_success_mono oracle c a f hs
        | false =>
          obtain ⟨j, hj1, hj2, hjnone, _⟩ := hH f hf hs
          have hja : j = a := by omega
          rw [hja] at hjnone
          rw [fileStep_of_accept oracle c a f hs hjnone]
      refine ⟨?_, ?_, ?_⟩
      · rw [hfst]
        apply List.all_eq_true.mpr
        intro f' hf'
        rw [passFiles_fst] at hf'
        obtain ⟨g, hg, rfl⟩ := List.mem_map.mp hf'
        exact hstepall g hg
      · intro f hf hs
        rw [hsnd]
        exact hzero_of_success f hf hs
      · intro f hf hs j hj1 hjnone hjmin
        obtain ⟨j0, hj01, hj02, hj0none, _⟩ := hH f hf hs
        have hj0a : j0 = a := by omega
        rw [hj0a] at hj0none
        have hja : j = a := by
          by_contra hne
          exact hjmin a (le_refl a) (by omega) hj0none
        subst hja
        rw [hsnd]
        exact passFiles_pending_count_one oracle c j files f hnd hf hs hj0none

theorem process_granule_result (oracle : RestoreOracle)
    (gid gb jid rt now : String) (mr : Nat) (files0 : List RecoverFile) :
    (process_granule oracle ⟨some gid, some files0⟩ gb mr jid rt now).1 =
      if (retryLoop oracle ⟨jid, gid, gb, rt, now⟩ mr (mr + 1) 1 files0).1.all
          (·.success)
      then .ok (retryLoop oracle ⟨jid, gid, gb, rt, now⟩ mr (mr + 1) 1 files0).1
      else .error (.restoreRequestError
        (retryLoop oracle ⟨jid, gid, gb, rt, now⟩ mr (mr + 1) 1 files0).1) := by
  simp only [process_granule]
  split <;> rfl

/-- C4: when every file's restore is eventually accepted within
`max_retries + 1` passes, `process_granule` returns the files all
successful, raises nothing, emits the single job PENDING event as the very
first operation of the run, and emits exactly one file PENDING event per
file, placed immediately after the restore call of the first pass at which
that file's restore is accepted. -/
theorem c4_all_eventually_succeed (oracle : RestoreOracle)
    (gid gb jid rt now : String) (mr : Nat) (files0 : List RecoverFile)
    (h0 : ∀ f ∈ files0, f.success = false)
    (hnd : (files0.map (·.key)).Nodup)
    (hev : ∀ f ∈ files0, ∃ j, 1 ≤ j ∧ j ≤ mr + 1 ∧ oracle f.key j = none) :
    (process_granule oracle ⟨some gid, some files0⟩ gb mr jid rt now).1 =
      .ok (finalFiles oracle ⟨jid, gid, gb, rt, now⟩ mr files0)
    ∧ (finalFiles oracle ⟨jid, gid, gb, rt, now⟩ mr files0).all (·.success) = true
    ∧ (process_granule oracle ⟨some gid, some files0⟩ gb mr jid rt now).2 =
        Op.postJobStatus (pendingJobData ⟨jid, gid, gb, rt, now⟩) ::
          (retryLoop oracle ⟨jid, gid, gb, rt, now⟩ mr (mr + 1) 1 files0).2
    ∧ countOps isJobPost
        (process_granule oracle ⟨some gid, some files0⟩ gb mr jid rt now).2 = 1
    ∧ (∀ f ∈ files0, ∃ j, 1 ≤ j ∧ j ≤ mr + 1 ∧ oracle f.key j = none ∧
        (∀ i, 1 ≤ i → i < j → oracle f.key i ≠ none) ∧
        countOps (isPendingFilePost f.key)
          (process_granule oracle ⟨some gid, some files0⟩ gb mr jid rt now).2 = 1 ∧
        [Op.restoreCall f.key j,
         Op.postFileStatus (pendingFileData ⟨jid, gid, gb, rt, now⟩
           ⟨f.key, f.dest_bucket, true, ""⟩)] <:+:
          (process_granule oracle ⟨some gid, some files0⟩ gb mr jid rt now).2) := by
  have hH : ∀ f ∈ files0, f.success = false →
      ∃ j, 1 ≤ j ∧ j ≤ 1 + (mr + 1) - 1 ∧ oracle f.key j = none ∧
        ∀ i, 1 ≤ i → i < j → oracle f.key i ≠ none := by
    intro f hf _
    obtain ⟨j, h1, h2, h3, h4⟩ := exists_min_accept oracle f.key mr (hev f hf)
    exact ⟨j, h1, by omega, h3, h4⟩
  obtain ⟨hall, hzero, hone⟩ := retryLoop_eventual_success oracle
    ⟨jid, gid, gb, rt, now⟩ mr (mr + 1) 1 files0 (by omega) (by omega) hnd hH
  have htr : (process_granule oracle ⟨some gid, some files0⟩ gb mr jid rt now).2 =
      Op.postJobStatus (pendingJobData ⟨jid, gid, gb, rt, now⟩) ::
        (retryLoop oracle ⟨jid, gid, gb, rt, now⟩ mr (mr + 1) 1 files0).2 := by
    rw [process_granule_trace]
    rw [failedPosts_all_success _ _ (fun f hf => List.all_eq_true.mp hall f hf)]
    rw [List.append_nil]
  refine ⟨?_, hall, htr, ?_, ?_⟩
  · rw [process_granule_result, if_pos hall]; rfl
  · rw [htr, countOps_cons,
      show isJobPost (Op.postJobStatus (pendingJobData ⟨jid, gid, gb, rt, now⟩)) =
        true from rfl]
    have hz : countOps isJobPost
        (retryLoop oracle ⟨jid, gid, gb, rt, now⟩ mr (mr + 1) 1 files0).2 = 0 := by
      apply countOps_eq_zero
      intro op hop
      cases op with
      | postJobStatus d =>
        exact absurd hop (retryLoop_no_jobpost oracle _ mr (mr + 1) 1 files0 d)
      | restoreCall k a => rfl
      | postFileStatus d => rfl
      | sleepOp => rfl
    rw [hz]
    simp
  · intro f hf
    obtain ⟨j, h1, h2, h3, h4⟩ := exists_min_accept oracle f.key mr (hev f hf)
    obtain ⟨hcnt, hinf⟩ := hone f hf (h0 f hf) j h1 h3 h4
    refine ⟨j, h1, h2, h3, h4, ?_, ?_⟩
    · rw [htr, countOps_cons,
        show isPendingFilePost f.key
          (Op.postJobStatus (pendingJobData ⟨jid, gid, gb, rt, now⟩)) =
          false from rfl]
      rw [hcnt]
      simp
    · rw [htr]
      exact infix_extend_left
        [Op.postJobStatus (pendingJobData ⟨jid, gid, gb, rt, now⟩)] hinf

/-- C4 witness: two files, `max_retries = 1`; file `f1` is accepted on pass
1 and `f2` on pass 2; the call returns all-successful files. -/
theorem c4_all_eventually_succeed_witness :
    (∀ f ∈ ([⟨"f1", "b1", false, ""⟩, ⟨"f2", "b2", false, ""⟩] : List RecoverFile),
      f.success = false)
    ∧ (([⟨"f1", "b1", false, ""⟩, ⟨"f2", "b2", false, ""⟩] : List RecoverFile).map
        (·.key)).Nodup
    ∧ (∀ f ∈ ([⟨"f1", "b1", false, ""⟩, ⟨"f2", "b2", false, ""⟩] : List RecoverFile),
        ∃ j, 1 ≤ j ∧ j ≤ 1 + 1 ∧
          (fun k a => if k = "f2" ∧ a = 1 then some "boom" else none : RestoreOracle)
            f.key j = none)
    ∧ (process_granule
        (fun k a => if k = "f2" ∧ a = 1 then some "boom" else none)
        ⟨some "G1", some [⟨"f1", "b1", false, ""⟩, ⟨"f2", "b2", false, ""⟩]⟩
        "gb" 1 "j" "rt" "now").1 =
      .ok (finalFiles (fun k a => if k = "f2" ∧ a = 1 then some "boom" else none)
        ⟨"j", "G1", "gb", "rt", "now"⟩ 1
        [⟨"f1", "b1", false, ""⟩, ⟨"f2", "b2", false, ""⟩]) := by
  have h0 : ∀ f ∈ ([⟨"f1", "b1", false, ""⟩, ⟨"f2", "b2", false, ""⟩] :
      List RecoverFile), f.success = false := by decide
  have hnd : (([⟨"f1", "b1", false, ""⟩, ⟨"f2", "b2", false, ""⟩] :
      List RecoverFile).map (·.key)).Nodup := by decide
  have hev : ∀ f ∈ ([⟨"f1", "b1", false, ""⟩, ⟨"f2", "b2", false, ""⟩] :
      List RecoverFile), ∃ j, 1 ≤ j ∧ j ≤ 1 + 1 ∧
        (fun k a => if k = "f2" ∧ a = 1 then some "boom" else none : RestoreOracle)
          f.key j = none := by
    intro f hf
    simp only [List.mem_cons, List.not_mem_nil, or_false] at hf
    rcases hf with rfl | rfl
    · exact ⟨1, by decide, by decide, by decide⟩
    · exact ⟨2, by decide, by decide, by decide⟩
  exact ⟨h0, hnd, hev,
    (c4_all_eventually_succeed
      (fun k a => if k = "f2" ∧ a = 1 then some "boom" else none)
      "G1" "gb" "j" "rt" "now" 1
      [⟨"f1", "b1", false, ""⟩, ⟨"f2", "b2", false, ""⟩] h0 hnd hev).1⟩

/-- C2: a granule with one file whose restore is rejected with
`"AccessDenied"` on every one of the `max_retries + 1 = 3` passes (all
three restore calls appear in the trace) gets exactly one FAILED file event
(not one per failed attempt), and that event carries a non-empty
`error_message` — but, contrary to the claim, no `completion_time` field at
all: line 297 of `request_files.py` passes `None` for the
`completion_time` parameter of `post_status_for_file_to_queue`, so the key
is omitted from the payload. -/
theorem c2_failed_event_lacks_completion_time :
    ((process_granule (fun _ _ => some "AccessDenied")
        ⟨some "G1", some [⟨"f1", "db", false, ""⟩]⟩ "gb" 2 "j1" "rt" "now").2.filter
          (isFailedFilePost "f1")) =
      [Op.postFileStatus (failedFileData ⟨"j1", "G1", "gb", "rt", "now"⟩
        ⟨"f1", "db", false, "AccessDenied"⟩)]
    ∧ Op.restoreCall "f1" 1 ∈ (process_granule (fun _ _ => some "AccessDenied")
        ⟨some "G1", some [⟨"f1", "db", false, ""⟩]⟩ "gb" 2 "j1" "rt" "now").2
    ∧ Op.restoreCall "f1" 2 ∈ (process_granule (fun _ _ => some "AccessDenied")
        ⟨some "G1", some [⟨"f1", "db", false, ""⟩]⟩ "gb" 2 "j1" "rt" "now").2
    ∧ Op.restoreCall "f1" 3 ∈ (process_granule (fun _ _ => some "AccessDenied")
        ⟨some "G1", some [⟨"f1", "db", false, ""⟩]⟩ "gb" 2 "j1" "rt" "now").2
    ∧ ("error_message", JValue.str "AccessDenied") ∈
        failedFileData ⟨"j1", "G1", "gb", "rt", "now"⟩
          ⟨"f1", "db", false, "AccessDenied"⟩
    ∧ "AccessDenied" ≠ ""
    ∧ ((failedFileData ⟨"j1", "G1", "gb", "rt", "now"⟩
          ⟨"f1", "db", false, "AccessDenied"⟩).all
        fun p => p.1 != "completion_time") = true :=
  ⟨by decide, by decide, by decide, by decide, by decide, by decide, by decide⟩

/-! ### Cold-storage probe: absent files are excluded, other errors abort -/

theorem object_exists_error (head : HeadOracle) (gb K : String) (e : PyErr)
    (h : object_exists head gb K = .error e) :
    ∃ code msg, e = .clientError code msg ∧
      ¬ (code = "NoSuchKey" ∨ code = "NotFound") ∧
      head gb K = .clientErr code msg := by
  unfold object_exists at h
  cases hh : head gb K with
  | ok => rw [hh] at h; exact Except.noConfusion h
  | clientErr code msg =>
    rw [hh] at h
    have h2 : (if code = "NoSuchKey" ∨ code = "NotFound" then Except.ok false
        else Except.error (PyErr.clientError code msg)) = Except.error e := h
    by_cases hc : code = "NoSuchKey" ∨ code = "NotFound"
    · rw [if_pos hc] at h2; exact Except.noConfusion h2
    · rw [if_neg hc] at h2
      injection h2 with h'
      exact ⟨code, msg, h'.symm, hc, rfl⟩

theorem collectFiles_excludes_absent (head : HeadOracle) (gb K : String)
    (habs : object_exists head gb K = .ok false) :
    ∀ (keys : List KeyEntry) (files : List RecoverFile),
      collectFiles head gb keys = .ok files → ∀ f ∈ files, f.key ≠ K
  | [], files, h => by
    simp only [collectFiles] at h
    injection h with h'
    intro f hf
    rw [← h'] at hf
    exact absurd hf (List.not_mem_nil f)
  | ke :: kes, files, h => by
    simp only [collectFiles, bind, Except.bind] at h
    cases hoe : object_exists head gb ke.key with
    | error e => rw [hoe] at h; exact Except.noConfusion h
    | ok present =>
      rw [hoe] at h
      cases hrec : collectFiles head gb kes with
      | error e => rw [hrec] at h; exact Except.noConfusion h
      | ok rest =>
        rw [hrec] at h
        have htail := collectFiles_excludes_absent head gb K habs kes rest hrec
        cases present with
        | true =>
          simp only [if_pos] at h
          injection h with h'
          intro f hf
          rw [← h'] at hf
          rcases List.mem_cons.mp hf with rfl | h1
          · intro hkey
            have hkk : ke.key = K := hkey
            rw [hkk] at hoe
            rw [habs] at hoe
            injection hoe with hb
            exact Bool.noConfusion hb
          · exact htail f h1
        | false =>
          simp only [Bool.false_eq_true, if_false] at h
          injection h with h'
          intro f hf
          rw [← h'] at hf
          exact htail f hf

theorem retryLoop_restore_keys (oracle : RestoreOracle) (c : Ctx) (mr : Nat) :
    ∀ (fuel a : Nat) (files : List RecoverFile) (key : String) (att : Nat),
      Op.restoreCall key att ∈ (retryLoop oracle c mr fuel a files).2 →
      key ∈ files.map (·.key) := by
  intro fuel
  induction fuel with
  | zero =>
    intro a files key att h
    rw [retryLoop_zero] at h
    exact absurd h (List.not_mem_nil _)
  | succ n ih =>
    intro a files key att
    have hpass : Op.restoreCall key att ∈ (passFiles oracle c a files).2 →
        key ∈ files.map (·.key) := by
      intro h
      obtain ⟨_, f, hf, hkey, _⟩ := passFiles_restore_attempt oracle c a files key att h
      exact List.mem_map.mpr ⟨f, hf, hkey⟩
    by_cases hcond : a + 1 ≤ mr + 1
    · cases hallp : (passFiles oracle c a files).1.all (·.success) with
      | true =>
        rw [retryLoop_succ_break oracle c mr n a files hcond hallp]
        exact hpass
      | false =>
        rw [retryLoop_succ_cont oracle c mr n a files hcond hallp]
        intro h
        simp only [List.mem_append, List.mem_cons] at h
        rcases h with h | h | h
        · exact hpass h
        · exact Op.noConfusion h
        · have := ih (a + 1) _ key att h
          rw [passFiles_keys] at this
          exact this
    · rw [retryLoop_succ_last oracle c mr n a files hcond]
      exact hpass

theorem process_granule_restore_keys (oracle : RestoreOracle)
    (gid gb jid rt now : String) (mr : Nat) (files0 : List RecoverFile)
    (key : String) (att : Nat)
    (h : Op.restoreCall key att ∈
      (process_granule oracle ⟨some gid, some files0⟩ gb mr jid rt now).2) :
    key ∈ files0.map (·.key) := by
  rw [process_granule_trace] at h
  simp only [List.mem_cons, List.mem_append] at h
  rcases h with h | h | h
  · exact Op.noConfusion h
  · exact retryLoop_restore_keys oracle _ mr (mr + 1) 1 files0 key att h
  · obtain ⟨f, _, _, hop⟩ := failedPosts_ops _ _ _ h
    exact Op.noConfusion hop

/-- `inner_task` on a single-granule input, decomposed into the probe loop
and the orchestrator call. -/
theorem inner_task_single (head : HeadOracle) (oracle : RestoreOracle)
    (gb : String) (g : InputGranule) (jid rt now : String) (mr : Nat) :
    inner_task head oracle ⟨some gb, [g], jid⟩ mr rt now =
      match collectFiles head gb g.keys with
      | .error e => (.error e, [])
      | .ok files =>
        match process_granule oracle ⟨g.granuleId, some files⟩ gb mr jid rt now with
        | (.error e, ops) => (.error e, ops)
        | (.ok fs, ops) => (.ok ⟨⟨g.granuleId, some fs⟩, jid⟩, ops) := by
  have hbuild : buildCopiedGranule head gb [g] ⟨none, none⟩ =
      match collectFiles head gb g.keys with
      | .error e => .error e
      | .ok files => .ok ⟨g.granuleId, some files⟩ := by
    simp only [buildCopiedGranule, bind, Except.bind]
    cases collectFiles head gb g.keys <;> rfl
  simp only [inner_task, List.length_cons, List.length_nil, hbuild]
  norm_num
  cases collectFiles head gb g.keys with
  | error e => rfl
  | ok files =>
    cases hpg : process_granule oracle ⟨g.granuleId, some files⟩ gb mr jid rt now with
    | mk r ops => cases r <;> rfl

theorem collectFiles_error_of_bad_probe (head : HeadOracle) (gb : String) :
    ∀ keys : List KeyEntry,
      (∃ ke ∈ keys, ∃ code msg, head gb ke.key = .clientErr code msg ∧
        ¬ (code = "NoSuchKey" ∨ code = "NotFound")) →
      ∃ code msg, ¬ (code = "NoSuchKey" ∨ code = "NotFound") ∧
        collectFiles head gb keys = .error (.clientError code msg)
  | [], h => absurd h.choose_spec.1 (List.not_mem_nil _)
  | ke :: kes, h => by
    cases hoe : object_exists head gb ke.key with
    | error e =>
      obtain ⟨code, msg, he, hbad, _⟩ := object_exists_error head gb ke.key e hoe
      refine ⟨code, msg, hbad, ?_⟩
      simp only [collectFiles, bind, Except.bind]
      rw [hoe, he]
    | ok present =>
      have hbadtail : ∃ ke' ∈ kes, ∃ code msg,
          head gb ke'.key = .clientErr code msg ∧
          ¬ (code = "NoSuchKey" ∨ code = "NotFound") := by
        obtain ⟨ke', hke', code, msg, hh, hbad⟩ := h
        rcases List.mem_cons.mp hke' with rfl | hmem
        · exfalso
          unfold object_exists at hoe
          rw [hh] at hoe
          have hoe2 : (if code = "NoSuchKey" ∨ code = "NotFound" then Except.ok false
              else Except.error (PyErr.clientError code msg)) =
              Except.ok present := hoe
          rw [if_neg hbad] at hoe2
          exact Except.noConfusion hoe2
        · exact ⟨ke', hmem, code, msg, hh, hbad⟩
      obtain ⟨code, msg, hbad, hrec⟩ :=
        collectFiles_error_of_bad_probe head gb kes hbadtail
      refine ⟨code, msg, hbad, ?_⟩
      simp only [collectFiles, bind, Except.bind]
      rw [hoe, hrec]

/-- C8: (1) a probe whose `head_object` fails with `NoSuchKey`/`NotFound`
reports the object confirmed absent; (2) any other `ClientError` is
re-raised by `object_exists`; (3) a confirmed-absent key never appears in
the collected `recover_files`; (4) hence no restore call is ever issued for
it by `inner_task`; (5) if some key's probe fails with a non-not-found
error, `inner_task` propagates a `ClientError` with a non-not-found code
and its trace is empty — no restore call and no queue message happen. -/
theorem c8_probe_behavior :
    (∀ (head : HeadOracle) (gb K code msg : String),
      head gb K = .clientErr code msg → (code = "NoSuchKey" ∨ code = "NotFound") →
      object_exists head gb K = .ok false)
    ∧ (∀ (head : HeadOracle) (gb K code msg : String),
      head gb K = .clientErr code msg → ¬ (code = "NoSuchKey" ∨ code = "NotFound") →
      object_exists head gb K = .error (.clientError code msg))
    ∧ (∀ (head : HeadOracle) (gb : String) (keys : List KeyEntry)
        (files : List RecoverFile) (K code msg : String),
      head gb K = .clientErr code msg → (code = "NoSuchKey" ∨ code = "NotFound") →
      collectFiles head gb keys = .ok files → ∀ f ∈ files, f.key ≠ K)
    ∧ (∀ (head : HeadOracle) (oracle : RestoreOracle) (gb : String)
        (g : InputGranule) (jid rt now : String) (mr : Nat) (K code msg : String),
      head gb K = .clientErr code msg → (code = "NoSuchKey" ∨ code = "NotFound") →
      ∀ att, Op.restoreCall K att ∉
        (inner_task head oracle ⟨some gb, [g], jid⟩ mr rt now).2)
    ∧ (∀ (head : HeadOracle) (oracle : RestoreOracle) (gb : String)
        (g : InputGranule) (jid rt now : String) (mr : Nat),
      (∃ ke ∈ g.keys, ∃ code msg, head gb ke.key = .clientErr code msg ∧
        ¬ (code = "NoSuchKey" ∨ code = "NotFound")) →
      ∃ code msg, ¬ (code = "NoSuchKey" ∨ code = "NotFound") ∧
        inner_task head oracle ⟨some gb, [g], jid⟩ mr rt now =
          (.error (.clientError code msg), [])) := by
  have habs : ∀ (head : HeadOracle) (gb K code msg : String),
      head gb K = .clientErr code msg → (code = "NoSuchKey" ∨ code = "NotFound") →
      object_exists head gb K = .ok false := by
    intro head gb K code msg hh hcode
    unfold object_exists
    rw [hh]
    show (if code = "NoSuchKey" ∨ code = "NotFound" then Except.ok false
      else Except.error (PyErr.clientError code msg)) = Except.ok false
    rw [if_pos hcode]
  refine ⟨habs, ?_, ?_, ?_, ?_⟩
  · intro head gb K code msg hh hcode
    unfold object_exists
    rw [hh]
    show (if code = "NoSuchKey" ∨ code = "NotFound" then Except.ok false
      else Except.error (PyErr.clientError code msg)) =
      Except.error (PyErr.clientError code msg)
    rw [if_neg hcode]
  · intro head gb keys files K code msg hh hcode hcf
    exact collectFiles_excludes_absent head gb K
      (habs head gb K code msg hh hcode) keys files hcf
  · intro head oracle gb g jid rt now mr K code msg hh hcode att hmem
    rw [inner_task_single] at hmem
    cases hcf : collectFiles head gb g.keys with
    | error e => rw [hcf] at hmem; exact absurd hmem (List.not_mem_nil _)
    | ok files =>
      rw [hcf] at hmem
      have hmem2 : Op.restoreCall K att ∈
          (match process_granule oracle ⟨g.granuleId, some files⟩ gb mr jid rt now with
            | (.error e, ops) => ((.error e : Except PyErr TaskOutput), ops)
            | (.ok fs, ops) => (.ok ⟨⟨g.granuleId, some fs⟩, jid⟩, ops)).2 := hmem
      have hnotin : ∀ f ∈ files, f.key ≠ K :=
        collectFiles_excludes_absent head gb K
          (habs head gb K code msg hh hcode) g.keys files hcf
      have hops : Op.restoreCall K att ∈
          (process_granule oracle ⟨g.granuleId, some files⟩ gb mr jid rt now).2 := by
        cases hpg : process_granule oracle ⟨g.granuleId, some files⟩ gb mr jid rt now with
        | mk r ops =>
          rw [hpg] at hmem2
          cases r with
          | error e => exact hmem2
          | ok fs => exact hmem2
      cases hgid : g.granuleId with
      | none =>
        rw [hgid] at hops
        exact absurd hops (List.not_mem_nil _)
      | some gid =>
        rw [hgid] at hops
        have hkeymem := process_granule_restore_keys oracle gid gb jid rt now mr
          files K att hops
        obtain ⟨f, hf, hfk⟩ := List.mem_map.mp hkeymem
        exact hnotin f hf hfk
  · intro head oracle gb g jid rt now mr hbad
    obtain ⟨code, msg, hb, hcf⟩ := collectFiles_error_of_bad_probe head gb g.keys hbad
    refine ⟨code, msg, hb, ?_⟩
    rw [inner_task_single, hcf]

/-- C8 witness: a probe for `"k1"` answers `NotFound` (confirmed absent ⇒
excluded), and a granule whose only key's probe answers `AccessDenied`
makes `inner_task` fail with that `ClientError` before any operation. -/
theorem c8_probe_behavior_witness :
    ((fun _ k => if k = "k1" then HeadOutcome.clientErr "NotFound" "404"
        else HeadOutcome.clientErr "AccessDenied" "403" : HeadOracle) "gb" "k1" =
      .clientErr "NotFound" "404")
    ∧ (("NotFound" : String) = "NoSuchKey" ∨ ("NotFound" : String) = "NotFound")
    ∧ object_exists
        (fun _ k => if k = "k1" then HeadOutcome.clientErr "NotFound" "404"
          else HeadOutcome.clientErr "AccessDenied" "403") "gb" "k1" = .ok false
    ∧ (∃ ke ∈ ([⟨"k2", "b"⟩] : List KeyEntry), ∃ code msg,
        (fun _ k => if k = "k1" then HeadOutcome.clientErr "NotFound" "404"
          else HeadOutcome.clientErr "AccessDenied" "403" : HeadOracle) "gb" ke.key =
          .clientErr code msg ∧ ¬ (code = "NoSuchKey" ∨ code = "NotFound"))
    ∧ (∃ code msg, ¬ (code = "NoSuchKey" ∨ code = "NotFound") ∧
        inner_task
          (fun _ k => if k = "k1" then HeadOutcome.clientErr "NotFound" "404"
            else HeadOutcome.clientErr "AccessDenied" "403")
          (fun _ _ => none) ⟨some "gb", [⟨some "G", [⟨"k2", "b"⟩]⟩], "j"⟩ 1 "rt" "now" =
          (.error (.clientError code msg), [])) :=
  ⟨by decide, by decide,
   c8_probe_behavior.1
     (fun _ k => if k = "k1" then HeadOutcome.clientErr "NotFound" "404"
       else HeadOutcome.clientErr "AccessDenied" "403")
     "gb" "k1" "NotFound" "404" (by decide) (by decide),
   ⟨⟨"k2", "b"⟩, by decide, "AccessDenied", "403", by decide, by decide⟩,
   c8_probe_behavior.2.2.2.2
     (fun _ k => if k = "k1" then HeadOutcome.clientErr "NotFound" "404"
       else HeadOutcome.clientErr "AccessDenied" "403")
     (fun _ _ => none) "gb" ⟨some "G", [⟨"k2", "b"⟩]⟩ "j" "rt" "now" 1
     ⟨⟨"k2", "b"⟩, by decide, "AccessDenied", "403", by decide, by decide⟩⟩

end Orca
